import Mathlib

/-!
Shallow embedding of the core modules of the uofc-chatbot-extension
repository: the command interpreter and query extractor
(sidepanel chatbot, src/unnamed/part_001), the semantic-search module
(src/sidepanel/semantic-search.js: embedding cache, similarity ranker,
multi-term ranking, query-result cache), and the section segmenter
(content script, src/unnamed/part_002).

JS numbers are embedded as real numbers (idealised, no floating point);
JS strings as Lean String; JS regular expressions through a small
backtracking matcher mirroring the exact patterns of the source; JS Maps
as association lists with overwrite-on-set; JS object references (needed
for the mutation behaviour of deduplicateResults) as indices into an
explicit store.
-/

namespace ChatbotExt

/-! ## String utilities (JS trim, whitespace handling) -/

/-- Whitespace as matched by the JS patterns in play (space, tab, CR, LF). -/
def isWsChar (c : Char) : Bool := c == ' ' || c == '\t' || c == '\n' || c == '\r'

/-- Character matched by the JS dot (anything but a line terminator). -/
def isDotChar (c : Char) : Bool := !(c == '\n' || c == '\r')

def isDigitChar (c : Char) : Bool := '0' ≤ c && c ≤ '9'

/-- JS String.prototype.trim on a character list. -/
def trimChars (l : List Char) : List Char :=
  ((l.dropWhile isWsChar).reverse.dropWhile isWsChar).reverse

/-- JS String.prototype.trim. -/
def jsTrim (s : String) : String := String.mk (trimChars s.data)

/-- JS .replace(/\s+/g, ' '): collapse every whitespace run into a single
space. -/
def collapseWs (l : List Char) : List Char :=
  l.foldr
    (fun c r =>
      if isWsChar c then
        match r with
        | ' ' :: _ => r
        | _ => ' ' :: r
      else c :: r) []

/-- .replace(/\s+/g, ' ').trim() as used by extractContentForEmbedding. -/
def jsNormalizeWs (s : String) : String := String.mk (trimChars (collapseWs s.data))

/-! ## A small backtracking regex matcher

Models the JS regular expressions of the source: case-insensitive
literals, greedy and lazy quantifiers over a character class, optional
(greedy) groups, ordered alternation, and numbered capture groups.  A
group inside an optional part that is skipped stays uncaptured, which
models the JS result of an unmatched group being undefined. -/

inductive Rx where
  | eps
  | str (s : String)
  | plusGreedy (p : Char → Bool)
  | plusLazy (p : Char → Bool)
  | starGreedy (p : Char → Bool)
  | opt (r : Rx)
  | alt (rs : List Rx)
  | seq (rs : List Rx)
  | grp (i : Nat) (r : Rx)

/-- Captures: group number to captured substring; absent = undefined. -/
abbrev Caps := List (Nat × String)

def capSet (caps : Caps) (i : Nat) (s : String) : Caps := (i, s) :: caps

def capGet (caps : Caps) (i : Nat) : Option String :=
  (caps.find? (fun c => c.1 == i)).map (fun c => c.2)

def lowEq (a b : Char) : Bool := a.toLower == b.toLower

/-- Case-insensitively strip a literal from the front of the input. -/
def dropLitCI : List Char → List Char → Option (List Char)
  | [], inp => some inp
  | _ :: _, [] => none
  | c :: cs, d :: ds => if lowEq c d then dropLitCI cs ds else none

/-- Length of the longest front run satisfying p. -/
def leadCount (p : Char → Bool) : List Char → Nat
  | [] => 0
  | c :: cs => if p c then leadCount p cs + 1 else 0

/-- Candidate consumption counts for a greedy quantifier: m, m-1, ..., lo. -/
def countsDesc (m lo : Nat) : List Nat := (List.range' lo (m + 1 - lo)).reverse

/-- Candidate consumption counts for a lazy quantifier: lo, ..., m. -/
def countsAsc (lo m : Nat) : List Nat := List.range' lo (m + 1 - lo)

/-- Try the continuation after consuming each candidate count in turn
(backtracking order of the quantifier). -/
def tryCounts (inp : List Char) (k : List Char → Caps → Option Caps)
    (caps : Caps) : List Nat → Option Caps
  | [] => none
  | n :: ns =>
    match k (inp.drop n) caps with
    | some res => some res
    | none => tryCounts inp k caps ns

mutual

/-- Continuation-passing backtracking matcher. -/
def matchRx : Rx → List Char → (List Char → Caps → Option Caps) → Caps → Option Caps
  | .eps, inp, k, caps => k inp caps
  | .str s, inp, k, caps =>
    match dropLitCI s.data inp with
    | some rest => k rest caps
    | none => none
  | .plusGreedy p, inp, k, caps => tryCounts inp k caps (countsDesc (leadCount p inp) 1)
  | .plusLazy p, inp, k, caps => tryCounts inp k caps (countsAsc 1 (leadCount p inp))
  | .starGreedy p, inp, k, caps => tryCounts inp k caps (countsDesc (leadCount p inp) 0)
  | .opt r, inp, k, caps =>
    match matchRx r inp k caps with
    | some res => some res
    | none => k inp caps
  | .alt rs, inp, k, caps => matchAlt rs inp k caps
  | .seq rs, inp, k, caps => matchSeq rs inp k caps
  | .grp i r, inp, k, caps =>
    matchRx r inp
      (fun rest caps1 =>
        k rest (capSet caps1 i (String.mk (inp.take (inp.length - rest.length)))))
      caps

/-- Ordered alternation (first alternative that lets the rest succeed wins). -/
def matchAlt : List Rx → List Char → (List Char → Caps → Option Caps) → Caps → Option Caps
  | [], _, _, _ => none
  | r :: rs, inp, k, caps =>
    match matchRx r inp k caps with
    | some res => some res
    | none => matchAlt rs inp k caps

/-- Sequencing. -/
def matchSeq : List Rx → List Char → (List Char → Caps → Option Caps) → Caps → Option Caps
  | [], inp, k, caps => k inp caps
  | r :: rs, inp, k, caps =>
    matchRx r inp (fun rest caps1 => matchSeq rs rest k caps1) caps

end

/-- Match a fully anchored pattern (JS ^...$). -/
def matchFull (r : Rx) (s : String) : Option Caps :=
  matchRx r s.data (fun rest caps => if rest.isEmpty then some caps else none) []

/-- Leftmost search for a pattern that is anchored at the end only
(JS .match on a pattern ending in $ without ^). -/
def searchEnd (r : Rx) : List Char → Option Caps
  | [] => matchRx r [] (fun rest caps => if rest.isEmpty then some caps else none) []
  | c :: tl =>
    match matchRx r (c :: tl) (fun rest caps => if rest.isEmpty then some caps else none) [] with
    | some caps => some caps
    | none => searchEnd r tl

/-- Shorthand used by the patterns below. -/
def ws1 : Rx := .plusGreedy isWsChar

def ws0 : Rx := .starGreedy isWsChar

/-- The JS ["']? piece. -/
def quoteOpt : Rx := .opt (.alt [.str "\"", .str "'"])

/-! ## Command Interpreter (parseWebCommand, src/unnamed/part_001:594-678)

The eleven pattern rules, transliterated one to one from the JS regex
literals, in source order.  extractParam names the match-array index the
source reads the query from. -/

inductive WebAction where
  | extractStructuredData
  | semanticSearch
  | findSections
  | semanticScroll
  | scrollToSection
  | scrollToSectionByNumber
  | getAllLinks
  | navigate
  | click
  | extractFormFields
deriving DecidableEq, Repr

structure WebCommand where
  action : WebAction
  description : String
  params : Option String
deriving DecidableEq, Repr

structure CmdRule where
  pattern : Rx
  action : WebAction
  description : String
  extractParam : Option Nat

/-- The ordered rule table of parseWebCommand. -/
def commands : List CmdRule := [
  { pattern := .seq [.grp 1 (.alt [.str "read", .str "extract", .str "scan"]),
      .opt (.grp 2 (.seq [ws1, .str "this"])), .opt (.grp 3 (.seq [ws1, .str "page"]))],
    action := .extractStructuredData,
    description := "Extract structured data from the current page",
    extractParam := none },
  { pattern := .seq [.str "semantic", ws1, .grp 1 (.alt [.str "search", .str "find"]),
      ws1, .opt (.grp 2 (.seq [.str "for", ws1])), .grp 3 (.plusGreedy isDotChar)],
    action := .semanticSearch,
    description := "Semantic search for content similar to your query",
    extractParam := some 2 },
  { pattern := .seq [.str "find", ws1, .str "content", ws1,
      .grp 1 (.alt [.str "like", .str "about", .seq [.str "similar", ws1, .str "to"]]),
      ws1, .grp 2 (.plusGreedy isDotChar)],
    action := .semanticSearch,
    description := "Find content semantically similar to your description",
    extractParam := some 2 },
  { pattern := .seq [.grp 1 (.alt [.str "find", .str "search"]),
      .opt (.grp 2 (.seq [ws1, .str "for"])), ws1, .grp 3 (.plusGreedy isDotChar)],
    action := .findSections,
    description := "Find sections containing specific text",
    extractParam := some 2 },
  { pattern := .seq [.str "smart", ws1, .str "scroll", ws1, .str "to", ws1,
      .grp 1 (.plusGreedy isDotChar)],
    action := .semanticScroll,
    description := "Scroll to the most semantically relevant section",
    extractParam := some 1 },
  { pattern := .seq [.grp 1 (.alt [.str "scroll", .str "go"]), ws1, .str "to", ws1,
      .grp 2 (.plusGreedy isDotChar)],
    action := .scrollToSection,
    description := "Scroll to a specific section or element",
    extractParam := some 2 },
  { pattern := .seq [.str "scroll", ws1, .str "to", ws1, .str "section", ws1,
      .grp 1 (.plusGreedy isDigitChar)],
    action := .scrollToSectionByNumber,
    description := "Scroll to a section by number from search results",
    extractParam := some 1 },
  { pattern := .seq [.grp 1 (.alt [.str "get", .str "list", .str "show"]),
      .opt (.grp 2 (.seq [ws1, .str "all"])), ws1, .str "link", .opt (.str "s")],
    action := .getAllLinks,
    description := "Get all links on the current page",
    extractParam := none },
  { pattern := .seq [.grp 1 (.alt [.str "navigate", .str "go"]), ws1, .str "to", ws1,
      .grp 2 (.seq [.str "http", .opt (.str "s"), .str "://", .plusGreedy isDotChar])],
    action := .navigate,
    description := "Navigate to a specific URL",
    extractParam := some 2 },
  { pattern := .seq [.grp 1 (.alt [.str "click", .str "press"]), ws1,
      .grp 2 (.plusGreedy isDotChar)],
    action := .click,
    description := "Click on an element",
    extractParam := some 1 },
  { pattern := .grp 1 (.alt [.seq [.str "form", .opt (.str "s")],
      .seq [.str "input", .opt (.str "s")], .seq [.str "field", .opt (.str "s")]]),
    action := .extractFormFields,
    description := "Extract form fields from the page",
    extractParam := none }
]

/-- The first-match loop of parseWebCommand.  Reading the query from an
unmatched (undefined) capture group throws in JS; that is the error
branch. -/
def runRules (message : String) : List CmdRule → Except String (Option WebCommand)
  | [] => .ok none
  | rule :: rest =>
    match matchFull rule.pattern message with
    | some caps =>
      match rule.extractParam with
      | none =>
        .ok (some { action := rule.action, description := rule.description, params := none })
      | some p =>
        match capGet caps p with
        | some g =>
          .ok (some { action := rule.action, description := rule.description,
                      params := some (jsTrim g) })
        | none => .error "TypeError: cannot read trim of undefined"
    | none => runRules message rest

/-- parseWebCommand (src/unnamed/part_001:594-678). -/
def parseWebCommand (message : String) : Except String (Option WebCommand) :=
  runRules message commands

/-! ## Query Extractor (extractSearchTerms, src/sidepanel/semantic-search.js:153-171) -/

/-- The scroll phrase pattern of extractSearchTerms (anchored at the end
only; all connector groups optional and non-capturing; lazy capture). -/
def scrollPattern : Rx :=
  .seq [.str "scroll", ws1, .opt (.seq [.str "to", ws1]), .opt (.seq [.str "a", ws1]),
    .opt (.seq [.str "section", ws1]), .opt (.seq [.str "that", ws1]),
    .opt (.alt [.seq [.str "mention", .opt (.str "s")], .str "about", .str "regarding",
      .str "concerning"]),
    ws0, quoteOpt, .grp 1 (.plusLazy isDotChar), quoteOpt]

/-- The find phrase pattern of extractSearchTerms. -/
def findPattern : Rx :=
  .seq [.str "find", ws1, .opt (.alt [.str "content", .str "section", .str "text"]),
    ws0, .opt (.alt [.str "about", .str "regarding", .str "concerning"]),
    ws0, quoteOpt, .grp 1 (.plusLazy isDotChar), quoteOpt]

/-- extractSearchTerms: scroll capture first, then find capture, falling
back to the whole utterance when neither pattern matches. -/
def extractSearchTerms (userRequest : String) : List String :=
  let t1 : List String :=
    match searchEnd scrollPattern userRequest.data with
    | some caps =>
      match capGet caps 1 with
      | some g => [jsTrim g]
      | none => []
    | none => []
  let t2 : List String :=
    match searchEnd findPattern userRequest.data with
    | some caps =>
      match capGet caps 1 with
      | some g => [jsTrim g]
      | none => []
    | none => []
  let terms := t1 ++ t2
  if terms.isEmpty then [userRequest] else terms

/-! ## Data model of the semantic-search module
(src/sidepanel/semantic-search.js)

JS numbers are embedded as real numbers.  The fields of a section that
the module reads are id, heading, text and links.  Search-result objects
live in an explicit store (list indexed by allocation order) because
deduplicateResults mutates them through shared references and the query
cache keeps references to them. -/

structure SLink where
  text : String
  href : String
deriving DecidableEq, Repr, Inhabited

structure SSection where
  id : String
  heading : Option String
  text : String
  links : List SLink
deriving DecidableEq, Repr, Inhabited

structure SResult where
  sec : SSection
  relevanceScore : ℝ
  relevanceLabel : String
deriving Inhabited

/-- A processed section as pushed by processContentSections:
the section spread together with its normalized content and embedding. -/
structure PSection where
  sec : SSection
  content : String
  embedding : List ℝ

/-- JS Map.get on an insertion-ordered association list. -/
def assocGet {α : Type} (m : List (String × α)) (k : String) : Option α :=
  (m.find? (fun e => e.1 == k)).map (fun e => e.2)

/-- JS Map.set: overwrite in place when the key exists, else append. -/
def assocSet {α : Type} (m : List (String × α)) (k : String) (v : α) : List (String × α) :=
  if (m.find? (fun e => e.1 == k)).isSome then
    m.map (fun e => if e.1 == k then (k, v) else e)
  else m ++ [(k, v)]

/-- calculateCosineSimilarity (semantic-search.js:119-126).  The JS
reduce pairs vecA's entries with vecB's entries positionwise; for
equal-length vectors that is the zipWith product sum. -/
noncomputable def calculateCosineSimilarity (vecA vecB : List ℝ) : ℝ :=
  let dotProduct := (List.zipWith (fun a b => a * b) vecA vecB).sum
  let magnitudeA := Real.sqrt (vecA.map (fun a => a * a)).sum
  let magnitudeB := Real.sqrt (vecB.map (fun b => b * b)).sum
  if magnitudeA = 0 ∨ magnitudeB = 0 then 0
  else dotProduct / (magnitudeA * magnitudeB)

/-- getRelevanceLabel (semantic-search.js:128-134). -/
noncomputable def getRelevanceLabel (similarity : ℝ) : String :=
  if similarity > 0.8 then "Very High"
  else if similarity > 0.6 then "High"
  else if similarity > 0.4 then "Medium"
  else if similarity > 0.2 then "Low"
  else "Very Low"

/-- extractContentForEmbedding (semantic-search.js:62-78): heading (when
truthy), text (when truthy) and the link texts, joined by spaces with
whitespace runs collapsed and the ends trimmed. -/
def extractContentForEmbedding (s : SSection) : String :=
  let parts : List String :=
    (match s.heading with
     | some h => if h = "" then [] else [h]
     | none => []) ++
    (if s.text = "" then [] else [s.text]) ++
    (if s.links.length > 0 then s.links.map (fun l => l.text) else [])
  jsNormalizeWs (String.intercalate " " parts)

/-- The .filter(result => result.similarity > 0.1) step. -/
noncomputable def filterSim : List (SSection × ℝ) → List (SSection × ℝ)
  | [] => []
  | x :: xs => if x.2 > 0.1 then x :: filterSim xs else filterSim xs

/-- One step of the stable descending insertion sort modelling the JS
.sort((a, b) => b.score - a.score). -/
noncomputable def insertDescBy {α : Type} (key : α → ℝ) (x : α) : List α → List α
  | [] => [x]
  | y :: ys => if key y ≥ key x then y :: insertDescBy key x ys else x :: y :: ys

/-- Stable sort by descending key. -/
noncomputable def sortDescBy {α : Type} (key : α → ℝ) (l : List α) : List α :=
  l.foldl (fun acc x => insertDescBy key x acc) []

/-- The ranking pipeline of semanticSearch (semantic-search.js:92-109):
keep the sections that have a cached embedding, score them against the
query embedding, drop scores of at most 0.1, sort descending, take the
first maxResults, and build the result objects. -/
noncomputable def rankSections (contentEmbeddings : List (String × List ℝ))
    (queryEmbedding : List ℝ) (sections : List SSection) (maxResults : Nat) :
    List SResult :=
  let sims :=
    filterSim ((sections.filter (fun s => (assocGet contentEmbeddings s.id).isSome)).map
      (fun s => (s, calculateCosineSimilarity queryEmbedding
        ((assocGet contentEmbeddings s.id).getD []))))
  ((sortDescBy (fun x => x.2) sims).take maxResults).map
    (fun x => { sec := x.1, relevanceScore := x.2, relevanceLabel := getRelevanceLabel x.2 })

/-- The session state of a SemanticSearch instance: the embedding cache,
the query-result cache (holding references into the store), and the
store of result objects allocated so far. -/
structure SState where
  contentEmbeddings : List (String × List ℝ)
  searchCache : List (String × List Nat)
  store : List SResult

/-- Field read through a reference (an out-of-range reference reads the
default object; live references are always in range). -/
noncomputable def scoreAt (store : List SResult) (r : Nat) : ℝ :=
  (store.getD r default).relevanceScore

def idAt (store : List SResult) (r : Nat) : String :=
  (store.getD r default).sec.id

def labelAt (store : List SResult) (r : Nat) : String :=
  (store.getD r default).relevanceLabel

/-- semanticSearch (semantic-search.js:80-117), with the embedding
provider passed explicitly and the number of generateEmbedding calls
returned as instrumentation.  A query-cache hit returns the cached
references unchanged; a null query embedding yields [] without caching;
otherwise the pipeline results are allocated in the store and cached. -/
noncomputable def semanticSearch (provider : String → Option (List ℝ)) (query : String)
    (sections : List SSection) (maxResults : Nat) (st : SState) :
    List Nat × SState × Nat :=
  let cacheKey := query ++ "_" ++ toString sections.length
  match assocGet st.searchCache cacheKey with
  | some refs => (refs, st, 0)
  | none =>
    match provider query with
    | none => ([], st, 1)
    | some queryEmbedding =>
      let results := rankSections st.contentEmbeddings queryEmbedding sections maxResults
      let refs := List.range' st.store.length results.length
      (refs, { st with store := st.store ++ results,
                       searchCache := assocSet st.searchCache cacheKey refs }, 1)

/-- The filter loop of deduplicateResults (semantic-search.js:173-187).
all is the original full array (results.find scans it from the start);
seen collects ids already kept; a duplicate with a higher score mutates
the first object with that id in place and is itself dropped. -/
noncomputable def dedupLoop (all : List Nat) :
    List SResult → List Nat → List String → List Nat → List SResult × List Nat
  | store, [], _, kept => (store, kept)
  | store, r :: rest, seen, kept =>
    if idAt store r ∈ seen then
      match all.find? (fun x => idAt store x == idAt store r) with
      | some ex =>
        if scoreAt store r > scoreAt store ex then
          dedupLoop all
            (store.set ex { store.getD ex default with
              relevanceScore := scoreAt store r,
              relevanceLabel := labelAt store r }) rest seen kept
        else dedupLoop all store rest seen kept
      | none => dedupLoop all store rest seen kept
    else dedupLoop all store rest (idAt store r :: seen) (kept ++ [r])

/-- deduplicateResults (semantic-search.js:173-187). -/
noncomputable def deduplicateResults (store : List SResult) (results : List Nat) :
    List SResult × List Nat :=
  dedupLoop results store results [] []

/-- The per-term loop of findMostRelevantSections: each term is searched
with the default maxResults of 5 and the result lists are concatenated. -/
noncomputable def searchStep (provider : String → Option (List ℝ))
    (sections : List SSection) (acc : List Nat × SState × Nat) (t : String) :
    List Nat × SState × Nat :=
  (acc.1 ++ (semanticSearch provider t sections 5 acc.2.1).1,
   (semanticSearch provider t sections 5 acc.2.1).2.1,
   acc.2.2 + (semanticSearch provider t sections 5 acc.2.1).2.2)

noncomputable def collectResults (provider : String → Option (List ℝ))
    (terms : List String) (sections : List SSection) (st : SState) :
    List Nat × SState × Nat :=
  terms.foldl (searchStep provider sections) ([], st, 0)

/-- findMostRelevantSections (semantic-search.js:136-151): extract terms,
concatenate the per-term results, deduplicate, re-sort by descending
relevanceScore and keep the top 3. -/
noncomputable def findMostRelevantSections (provider : String → Option (List ℝ))
    (userRequest : String) (sections : List SSection) (st : SState) :
    List Nat × SState × Nat :=
  let c := collectResults provider (extractSearchTerms userRequest) sections st
  let d := deduplicateResults c.2.1.store c.1
  let ranked := (sortDescBy (scoreAt d.1) d.2).take 3
  (ranked, { c.2.1 with store := d.1 }, c.2.2)

/-- processContentSections (semantic-search.js:41-60), with the provider
passed explicitly and the number of generateEmbedding calls returned.
Every section whose extracted content is truthy and longer than 50
characters triggers a provider call — there is no membership test
against the cache — and a successful call overwrites the cache entry
for that id. -/
def processStep (provider : String → Option (List ℝ))
    (acc : List PSection × List (String × List ℝ) × Nat) (s : SSection) :
    List PSection × List (String × List ℝ) × Nat :=
  if extractContentForEmbedding s ≠ "" ∧ (extractContentForEmbedding s).length > 50 then
    match provider (extractContentForEmbedding s) with
    | some embedding =>
      (acc.1 ++ [⟨s, extractContentForEmbedding s, embedding⟩],
       assocSet acc.2.1 s.id embedding, acc.2.2 + 1)
    | none => (acc.1, acc.2.1, acc.2.2 + 1)
  else acc

def processContentSections (provider : String → Option (List ℝ))
    (sections : List SSection) (contentEmbeddings : List (String × List ℝ)) :
    List PSection × List (String × List ℝ) × Nat :=
  sections.foldl (processStep provider) ([], contentEmbeddings, 0)

/-- clearEmbeddings (semantic-search.js:193-195).  Defined in the source
but never invoked anywhere in the repository. -/
def clearEmbeddings (_contentEmbeddings : List (String × List ℝ)) :
    List (String × List ℝ) := []

/-- clearCache (semantic-search.js:189-191).  Also never invoked. -/
def clearCache (_searchCache : List (String × List Nat)) : List (String × List Nat) := []

/-- processSemanticSections (src/unnamed/part_001:883-893): hands the
fresh pass's section set straight to processContentSections.  It does
not call clearEmbeddings first, so whatever the embedding cache held
from the previous pass is still there when the new pass's embeddings
are requested. -/
def processSemanticSections (provider : String → Option (List ℝ))
    (semanticSections : List SSection) (contentEmbeddings : List (String × List ℝ)) :
    List PSection × List (String × List ℝ) × Nat :=
  processContentSections provider semanticSections contentEmbeddings

/-- The embedding-eligibility test of processContentSections as a
predicate: truthy content longer than 50 characters. -/
def qualifiesForEmbedding (s : SSection) : Bool :=
  decide (extractContentForEmbedding s ≠ "" ∧ (extractContentForEmbedding s).length > 50)

/-! ## Concrete data used by the evaluation theorems -/

/-- A section whose extracted content is comfortably longer than 50
characters. -/
def longSec : SSection :=
  { id := "s1", heading := some "Tuition and fees at the university",
    text := "Tuition costs for the upcoming academic year are listed in the fee schedule.",
    links := [] }

/-- A pass-one section carrying a segmenter-style id. -/
def passOneSec : SSection :=
  { id := "semantic-section-0", heading := some "Overview of admission requirements",
    text := "Applicants must meet the general admission requirements of the faculty.",
    links := [] }

/-- A provider that always succeeds with a fixed vector. -/
noncomputable def constProvider : String → Option (List ℝ) := fun _ => some [2]

/-- Well-formedness of a session state: every reference held by a
query-cache entry points into the store.  Every state reachable by the
module's operations satisfies this. -/
def StateValid (st : SState) : Prop :=
  ∀ key refs, assocGet st.searchCache key = some refs → ∀ r ∈ refs, r < st.store.length

/-- Invariant of the deduplicateResults filter loop after processing a
prefix of the reference list: ids are never mutated, seen holds exactly
the ids of the processed prefix, kept holds the first occurrence of each
id of the prefix, its objects carry the maximum original score seen so
far for their id, and every cell outside kept is untouched. -/
structure DedupInv (store0 : List SResult) (all processedRefs : List Nat)
    (store : List SResult) (seen : List String) (kept : List Nat) : Prop where
  len_eq : store.length = store0.length
  ids_eq : ∀ r, idAt store r = idAt store0 r
  seen_iff : ∀ s, s ∈ seen ↔ ∃ r ∈ processedRefs, idAt store0 r = s
  kept_sub : ∀ k ∈ kept, k ∈ processedRefs
  kept_nodup : (kept.map (idAt store0)).Nodup
  kept_covers : ∀ r ∈ processedRefs, ∃ k ∈ kept, idAt store0 k = idAt store0 r
  kept_first : ∀ k ∈ kept, all.find? (fun x => idAt store0 x == idAt store0 k) = some k
  kept_max : ∀ k ∈ kept,
    ((processedRefs.filter (fun x => idAt store0 x == idAt store0 k)).map
      (scoreAt store0)).maximum = some (scoreAt store k)
  untouched : ∀ c, c ∉ kept → store.getD c default = store0.getD c default

/-- Decidable equality for Except, used by the evaluation theorems. -/
instance {e a : Type} [DecidableEq e] [DecidableEq a] : DecidableEq (Except e a)
  | .ok x, .ok y =>
    if h : x = y then isTrue (congrArg Except.ok h)
    else isFalse (fun c => h (Except.ok.inj c))
  | .error x, .error y =>
    if h : x = y then isTrue (congrArg Except.error h)
    else isFalse (fun c => h (Except.error.inj c))
  | .ok _, .error _ => isFalse (fun c => Except.noConfusion c)
  | .error _, .ok _ => isFalse (fun c => Except.noConfusion c)

/-- Demo data for the query-cache aliasing scenario: one section whose
embedding is cached, and a provider with fixed embeddings for the two
search terms of the utterance "scroll to find about revenue". -/
def demoSec : SSection := { id := "a", heading := none, text := "", links := [] }

noncomputable def demoProvider : String → Option (List ℝ) := fun q =>
  if q = "find about revenue" then some [3, 4]
  else if q = "revenue" then some [1, 0] else none

noncomputable def demoState0 : SState :=
  { contentEmbeddings := [("a", [1, 0])], searchCache := [], store := [] }

/-! ## Section Segmenter (content script, src/unnamed/part_002)

The document is modelled as a forest of element nodes.  A node carries
the attributes the segmenter reads (tag name in lower case, id, class
list, role, aria-label, title, href) and its own text; innerText is the
node's own text followed by its descendants' text in order.  An element
is identified by its reversed child-index path: the path i :: pp denotes
child number i of the element at path pp, and [] denotes the document
itself.  JS object identity of elements (processedElements is a Set of
elements) is path identity here. -/

structure ElemData where
  tag : String
  idAttr : String
  classList : List String
  role : String
  ariaLabel : String
  titleAttr : String
  href : String
  text : String
deriving DecidableEq, Repr, Inhabited

inductive DNode where
  | mk (data : ElemData) (children : List DNode)

def DNode.data : DNode → ElemData
  | .mk d _ => d

def DNode.children : DNode → List DNode
  | .mk _ c => c

def defaultNode : DNode := .mk default []

abbrev DPath := List Nat

/-- The node at a reversed path (the default node when out of range). -/
def nodeAt (doc : List DNode) : DPath → DNode
  | [] => .mk default doc
  | i :: pp => (nodeAt doc pp).children.getD i defaultNode

def dataAt (doc : List DNode) (p : DPath) : ElemData := (nodeAt doc p).data

mutual

/-- element.innerText: own text then the descendants' text in order. -/
def innerText : DNode → String
  | .mk d cs => d.text ++ innerTextList cs
termination_by structural n => n

def innerTextList : List DNode → String
  | [] => ""
  | c :: cs => innerText c ++ innerTextList cs
termination_by structural l => l

end

mutual

/-- Reversed paths of a subtree in document (preorder) order. -/
def preorderNode (pp : DPath) (i : Nat) : DNode → List DPath
  | .mk _ cs => (i :: pp) :: preorderUnder (i :: pp) 0 cs
termination_by structural n => n

/-- Reversed paths of a forest in document (preorder) order, the order
querySelectorAll returns matches in. -/
def preorderUnder (pp : DPath) (i : Nat) : List DNode → List DPath
  | [] => []
  | n :: rest => preorderNode pp i n ++ preorderUnder pp (i + 1) rest
termination_by structural l => l

end

def docPaths (doc : List DNode) : List DPath := preorderUnder [] 0 doc

/-- Paths of the strict descendants of the element at p. -/
def subtreePaths (doc : List DNode) (p : DPath) : List DPath :=
  preorderUnder p 0 (nodeAt doc p).children

/-- The CSS selector forms used by the segmenter. -/
inductive Sel where
  | tagIs (t : String)
  | classHas (c : String)
  | roleIs (r : String)
  | hasAria

def selMatches (s : Sel) (d : ElemData) : Bool :=
  match s with
  | .tagIs t => d.tag == t
  | .classHas c => d.classList.contains c
  | .roleIs r => d.role == r
  | .hasAria => !(d.ariaLabel == "")

def matchesAny (sels : List Sel) (d : ElemData) : Bool := sels.any (fun s => selMatches s d)

/-- document.querySelectorAll for a selector group: matching elements in
document order, each element once. -/
def queryAll (doc : List DNode) (sels : List Sel) : List DPath :=
  (docPaths doc).filter (fun p => matchesAny sels (dataAt doc p))

def headingSelList : List Sel :=
  [.tagIs "h1", .tagIs "h2", .tagIs "h3", .tagIs "h4", .tagIs "h5", .tagIs "h6"]

def isHeadingTag (t : String) : Bool := matchesAny headingSelList { (default : ElemData) with tag := t }

/-- parseInt(tagName.substring(1)) for h1..h6. -/
def headingLevel (t : String) : Nat :=
  if t == "h1" then 1 else if t == "h2" then 2 else if t == "h3" then 3
  else if t == "h4" then 4 else if t == "h5" then 5 else if t == "h6" then 6 else 0

/-- getElementSelector (part_002:495-508): id selector, else class
selector, else tag:nth-of-type among same-tag siblings. -/
def getElementSelector (doc : List DNode) (p : DPath) : String :=
  let d := dataAt doc p
  if d.idAttr ≠ "" then "#" ++ d.idAttr
  else if d.classList ≠ [] then "." ++ String.intercalate "." d.classList
  else
    match p with
    | [] => d.tag
    | i :: pp =>
      let siblings := (nodeAt doc pp).children
      let sameTag := (List.range siblings.length).filter
        (fun j => (siblings.getD j defaultNode).data.tag == d.tag)
      d.tag ++ ":nth-of-type(" ++ toString (sameTag.indexOf i + 1) ++ ")"

/-- A content block as assembled by identifyContentBlocks.  elementPaths
is the claimed-elements list (the JS block.elements). -/
structure Block where
  heading : Option String
  content : String
  elementPaths : List DPath
  type : String
  level : Nat
  links : List (String × String)
  selector : String
deriving DecidableEq, Repr

/-- The sibling walk of extractSectionFromHeading: number of following
siblings consumed before the next heading of equal or shallower level. -/
def walkCount (lvl : Nat) : List DNode → Nat
  | [] => 0
  | n :: rest =>
    if isHeadingTag n.data.tag ∧ headingLevel n.data.tag ≤ lvl then 0
    else walkCount lvl rest + 1

/-- extractSectionFromHeading (part_002:579-604). -/
def extractSectionFromHeading (doc : List DNode) (hp : DPath) : Block :=
  match hp with
  | [] =>
    { heading := some (jsTrim (innerText (nodeAt doc []))), content := "",
      elementPaths := [[]], type := "heading-section", level := 0, links := [],
      selector := getElementSelector doc [] }
  | i :: pp =>
    let lvl := headingLevel (dataAt doc (i :: pp)).tag
    let sibs := (nodeAt doc pp).children.drop (i + 1)
    let cnt := walkCount lvl sibs
    let consumed := sibs.take cnt
    { heading := some (jsTrim (innerText (nodeAt doc (i :: pp)))),
      content := jsTrim (String.join (consumed.map (fun n => innerText n ++ "\n"))),
      elementPaths := (i :: pp) :: (List.range cnt).map (fun d => (i + 1 + d) :: pp),
      type := "heading-section",
      level := lvl,
      links := [],
      selector := getElementSelector doc (i :: pp) }

def titleSelectorGroups : List (List Sel) :=
  [headingSelList, [.classHas "title"], [.classHas "headline"], [.classHas "subject"],
   [.hasAria], [.tagIs "title"]]

/-- The selector loop of getBlockTitle: first matching descendant with
nonempty trimmed text wins; an empty-texted match falls through to the
next selector. -/
def titleFromSelectors (doc : List DNode) (descendants : List DPath) :
    List (List Sel) → Option String
  | [] => none
  | g :: gs =>
    match descendants.find? (fun q => matchesAny g (dataAt doc q)) with
    | some q =>
      if jsTrim (innerText (nodeAt doc q)) ≠ "" then some (jsTrim (innerText (nodeAt doc q)))
      else titleFromSelectors doc descendants gs
    | none => titleFromSelectors doc descendants gs

def replaceDashUnderscore (s : String) : String :=
  String.mk (s.data.map (fun c => if c = '-' ∨ c = '_' then ' ' else c))

/-- text.match(/^[^.!?]+[.!?]/) then [0].trim(). -/
def firstSentence (s : String) : Option String :=
  let pre := s.data.takeWhile (fun c => !(c == '.' || c == '!' || c == '?'))
  if pre.isEmpty then none
  else
    match s.data.drop pre.length with
    | [] => none
    | t :: _ => some (jsTrim (String.mk (pre ++ [t])))

/-- getBlockTitle (part_002:623-657). -/
def getBlockTitle (doc : List DNode) (p : DPath) : Option String :=
  match titleFromSelectors doc (subtreePaths doc p) titleSelectorGroups with
  | some t => some t
  | none =>
    let d := dataAt doc p
    if d.ariaLabel ≠ "" then some d.ariaLabel
    else if d.titleAttr ≠ "" then some d.titleAttr
    else if d.idAttr ≠ "" then some (replaceDashUnderscore d.idAttr)
    else firstSentence (jsTrim (innerText (nodeAt doc p)))

/-- extractContentBlock (part_002:606-621). -/
def extractContentBlock (doc : List DNode) (p : DPath) : Block :=
  { heading := getBlockTitle doc p,
    content := jsTrim (innerText (nodeAt doc p)),
    elementPaths := [p],
    type := "semantic-block",
    level := 0,
    links := ((subtreePaths doc p).filter (fun q => (dataAt doc q).tag == "a")).map
      (fun q => (jsTrim (innerText (nodeAt doc q)), (dataAt doc q).href)),
    selector := getElementSelector doc p }

/-- The heading loop of identifyContentBlocks (part_002:542-551): skip
claimed headings, push the section and claim its elements. -/
def headingPass (doc : List DNode) :
    List DPath → List Block × List DPath → List Block × List DPath
  | [], acc => acc
  | hp :: rest, (bs, proc) =>
    if hp ∈ proc then headingPass doc rest (bs, proc)
    else
      headingPass doc rest
        (bs ++ [extractSectionFromHeading doc hp],
         proc ++ (extractSectionFromHeading doc hp).elementPaths)

/-- The semantic-selector list (part_002:554-558), in source order. -/
def semanticSelectors : List (List Sel) :=
  [[.tagIs "article"], [.tagIs "section"], [.classHas "content"], [.classHas "post"],
   [.classHas "entry"], [.roleIs "article"], [.roleIs "main"], [.classHas "description"],
   [.classHas "info"], [.classHas "details"], [.classHas "summary"]]

/-- The inner loop of the semantic pass (part_002:560-570): skip claimed
elements, keep blocks whose content exceeds 100 characters. -/
def semanticPassOne (doc : List DNode) :
    List DPath → List Block × List DPath → List Block × List DPath
  | [], acc => acc
  | p :: ps, (bs, proc) =>
    if p ∈ proc then semanticPassOne doc ps (bs, proc)
    else
      if (extractContentBlock doc p).content.length > 100 then
        semanticPassOne doc ps (bs ++ [extractContentBlock doc p], proc ++ [p])
      else semanticPassOne doc ps (bs, proc)

def semanticPass (doc : List DNode) :
    List (List Sel) → List Block × List DPath → List Block × List DPath
  | [], acc => acc
  | sel :: rest, acc => semanticPass doc rest (semanticPassOne doc (queryAll doc sel) acc)

/-- The number of whitespace-run-separated words of a trimmed text. -/
def wordCountAux : List Char → Bool → Nat
  | [], _ => 0
  | c :: cs, inWord =>
    if isWsChar c then wordCountAux cs false
    else (if inWord then 0 else 1) + wordCountAux cs true

def wordCount (s : String) : Nat := wordCountAux s.data false

def textBlockSelList : List Sel := [.tagIs "p", .classHas "paragraph", .classHas "text"]

/-- The paragraph loop of findTextBlocks (part_002:659-682). -/
def textBlocksLoop (doc : List DNode) (processed : List DPath) : List DPath → List Block
  | [] => []
  | p :: ps =>
    if p ∈ processed then textBlocksLoop doc processed ps
    else
      let text := jsTrim (innerText (nodeAt doc p))
      if text.length > 100 ∧ text.length < 1000 then
        if wordCount text > 20 then
          { heading := none,
            content := text,
            elementPaths := [p],
            type := "text-block",
            level := 0,
            links := [],
            selector := getElementSelector doc p } :: textBlocksLoop doc processed ps
        else textBlocksLoop doc processed ps
      else textBlocksLoop doc processed ps

/-- findTextBlocks (part_002:659-682). -/
def findTextBlocks (doc : List DNode) (processed : List DPath) : List Block :=
  textBlocksLoop doc processed (queryAll doc textBlockSelList)

/-- identifyContentBlocks (part_002:537-577): heading sections, then
semantic blocks over unclaimed elements, then remaining text blocks. -/
def identifyContentBlocks (doc : List DNode) : List Block :=
  let h := headingPass doc (queryAll doc headingSelList) ([], [])
  let s := semanticPass doc semanticSelectors h
  s.1 ++ findTextBlocks doc s.2

/-- "Element p contributes content to block b": p lies in the subtree of
a claimed element of b (with reversed paths, a claimed path is a suffix
of p). -/
def contributesTo (p : DPath) (b : Block) : Bool :=
  b.elementPaths.any (fun q => q.isSuffixOf p)

/-- The demo document for the overlap counterexample: an h1 followed by a
div holding one long paragraph.  The heading section claims the h1 and
the div (whose innerText is the paragraph text); the paragraph itself is
never claimed, so findTextBlocks emits it again as a text block. -/
def demoPar : ElemData :=
  { tag := "p", idAttr := "", classList := [], role := "", ariaLabel := "",
    titleAttr := "", href := "",
    text := "Tuition fees for the winter term are due by the posted deadline and students should consult the registrar for the detailed fee schedule and payment options" }

def demoDoc : List DNode :=
  [.mk { tag := "h1", idAttr := "", classList := [], role := "", ariaLabel := "",
         titleAttr := "", href := "", text := "Campus Overview" } [],
   .mk { tag := "div", idAttr := "", classList := [], role := "", ariaLabel := "",
         titleAttr := "", href := "", text := "" }
     [.mk demoPar []]]

def defaultBlock : Block :=
  { heading := none, content := "", elementPaths := [], type := "", level := 0,
    links := [], selector := "" }

/-- Two blocks claim disjoint element sets. -/
def BlocksDisjoint (b1 b2 : Block) : Prop :=
  ∀ p ∈ b1.elementPaths, p ∉ b2.elementPaths

/-- p and q are children of one parent and the child index of p is the
smaller: the order preorder traversal lists same-parent elements in. -/
def sameParentLt (p q : DPath) : Prop :=
  ∀ t a b, p = a :: t → q = b :: t → a < b

/-- The invariant of the heading loop: blocks so far claim pairwise
disjoint sets, every claimed path is recorded in proc, and each block
claims a contiguous index range of one parent's children that every
still-pending unclaimed heading of that parent lies beyond. -/
def HeadInv (hs : List DPath) (bs : List Block) (proc : List DPath) : Prop :=
  List.Pairwise BlocksDisjoint bs ∧
  (∀ b ∈ bs, ∀ p ∈ b.elementPaths, p ∈ proc) ∧
  (∀ b ∈ bs, ∃ pp i e, i < e ∧
    (∀ q, q ∈ b.elementPaths ↔ ∃ k, i ≤ k ∧ k < e ∧ q = k :: pp) ∧
    (∀ hp ∈ hs, ∀ j, hp = j :: pp → hp ∉ proc → e ≤ j))

/-! ## Theorems -/

/-- Setting a key makes it readable: the JS Map.set/get round trip. -/
theorem assocGet_assocSet_self {α : Type} (m : List (String × α)) (k : String) (v : α) :
    assocGet (assocSet m k v) k = some v := by
  unfold assocSet
  by_cases h : (m.find? (fun e => e.1 == k)).isSome
  · rw [if_pos h]
    induction m with
    | nil => simp [List.find?] at h
    | cons e tl ih =>
      by_cases he : e.1 == k
      · simp [assocGet, List.find?, he]
      · rw [List.find?_cons_of_neg _ (by simpa using he)] at h
        simpa [assocGet, List.find?, he] using ih h
  · rw [if_neg h]
    induction m with
    | nil => simp [assocGet, List.find?]
    | cons e tl ih =>
      by_cases he : e.1 == k
      · rw [List.find?_cons_of_pos _ (by simpa using he)] at h
        simp at h
      · rw [List.find?_cons_of_neg _ (by simpa using he)] at h
        simpa [assocGet, List.find?, he] using ih h

/-- The provider-call count of the batch loop: one call per eligible
section, added to whatever the accumulator already counted — in
particular it does not depend on the embedding cache in the
accumulator. -/
theorem processFold_calls (provider : String → Option (List ℝ)) (sections : List SSection) :
    ∀ acc : List PSection × List (String × List ℝ) × Nat,
      (sections.foldl (processStep provider) acc).2.2 =
        acc.2.2 + sections.countP qualifiesForEmbedding := by
  induction sections with
  | nil => intro acc; simp
  | cons s tl ih =>
    intro acc
    rw [List.foldl_cons, ih, List.countP_cons]
    by_cases h : extractContentForEmbedding s ≠ "" ∧ (extractContentForEmbedding s).length > 50
    · have hq : qualifiesForEmbedding s = true := by
        simp only [qualifiesForEmbedding, decide_eq_true_eq]
        exact h
      unfold processStep
      rw [if_pos h]
      cases hp : provider (extractContentForEmbedding s) <;> simp [hq] <;> omega
    · have hq : qualifiesForEmbedding s = false := by
        simp only [qualifiesForEmbedding, decide_eq_false_iff_not]
        exact h
      unfold processStep
      rw [if_neg h]
      simp [hq]

/-- C4 counterexample: with the id s1 already present in the embedding
cache, processing the section again still issues a provider call — the
call count is 1, not 0 as the memoization claim would demand, and the
cached vector is not reused but overwritten. -/
theorem C4_counterexample_reprocessing_calls_provider :
    ¬ ((processContentSections constProvider [longSec] [("s1", [1])]).2.2 = 0) := by
  decide

/-- C1: interpreting "semantic search for tuition costs" does reach the
SemanticSearch rule (not FindSections), but the rule's extractParam
names match-array index 2, which is the optional "for " group, so
params.query is "for" — not "tuition costs" as the specification
requires.  The query text sits in capture group 3. -/
theorem C1_semanticSearch_query_is_for :
    parseWebCommand "semantic search for tuition costs" =
      .ok (some { action := .semanticSearch,
                  description := "Semantic search for content similar to your query",
                  params := some "for" }) ∧
    ¬ ∃ cmd, parseWebCommand "semantic search for tuition costs" = .ok (some cmd) ∧
      cmd.params = some "tuition costs" := by
  have h : parseWebCommand "semantic search for tuition costs" =
      .ok (some { action := .semanticSearch,
                  description := "Semantic search for content similar to your query",
                  params := some "for" }) := by decide
  refine ⟨h, ?_⟩
  rintro ⟨cmd, hcmd, hp⟩
  rw [h] at hcmd
  simp only [Except.ok.injEq, Option.some.injEq] at hcmd
  subst hcmd
  simp at hp

/-- C7: the interpreter is not total.  On "search hello" the fourth rule
matches with its optional capture group 2 unmatched, the source reads
match[2].trim() from an undefined value, and the call throws instead of
returning a Command or null. -/
theorem C7_parse_throws_on_search_hello :
    parseWebCommand "search hello" = .error "TypeError: cannot read trim of undefined" := by
  decide

/-- C8: "scroll to section 3" is captured by the general scroll rule
(rule index 5), which precedes the scroll-to-section-by-number rule
(rule index 6) in the table, so it resolves to ScrollToSection with
query "section 3" — never to ScrollToSectionByNumber with query "3". -/
theorem C8_scroll_to_section_number_shadowed :
    parseWebCommand "scroll to section 3" =
      .ok (some { action := .scrollToSection,
                  description := "Scroll to a specific section or element",
                  params := some "section 3" }) ∧
    ¬ ∃ cmd, parseWebCommand "scroll to section 3" = .ok (some cmd) ∧
      cmd.action = .scrollToSectionByNumber := by
  have h : parseWebCommand "scroll to section 3" =
      .ok (some { action := .scrollToSection,
                  description := "Scroll to a specific section or element",
                  params := some "section 3" }) := by decide
  refine ⟨h, ?_⟩
  rintro ⟨cmd, hcmd, hp⟩
  rw [h] at hcmd
  simp only [Except.ok.injEq, Option.some.injEq] at hcmd
  subst hcmd
  simp at hp

/-- zipWith of a vector with itself is the diagonal map. -/
theorem zipWith_mul_self (a : List ℝ) :
    List.zipWith (fun x y => x * y) a a = a.map fun x => x * x := by
  induction a with
  | nil => rfl
  | cons x tl ih => simp [List.zipWith, ih]

/-- The dot product of the model is symmetric. -/
theorem zipWith_mul_comm (a b : List ℝ) :
    List.zipWith (fun x y => x * y) a b = List.zipWith (fun x y => x * y) b a := by
  induction a generalizing b with
  | nil => cases b <;> rfl
  | cons x tl ih =>
    cases b with
    | nil => rfl
    | cons y tb => simp [List.zipWith, ih, mul_comm]

/-- C9: cosine similarity is symmetric for equal-length vectors, equals 1
on any nonzero vector paired with itself, and is 0 whenever either
magnitude is 0. -/
theorem C9_cosine_properties (a b : List ℝ) (_hlen : a.length = b.length) :
    calculateCosineSimilarity a b = calculateCosineSimilarity b a ∧
    ((∃ x ∈ a, x ≠ 0) → calculateCosineSimilarity a a = 1) ∧
    ((Real.sqrt ((a.map fun x => x * x).sum) = 0 ∨
      Real.sqrt ((b.map fun x => x * x).sum) = 0) →
      calculateCosineSimilarity a b = 0) := by
  refine ⟨?_, ?_, ?_⟩
  · simp only [calculateCosineSimilarity]
    rw [zipWith_mul_comm]
    by_cases hA : Real.sqrt ((a.map fun x => x * x).sum) = 0 <;>
      by_cases hB : Real.sqrt ((b.map fun x => x * x).sum) = 0 <;>
      simp [hA, hB, mul_comm]
  · rintro ⟨x, hx, hx0⟩
    have hnn : ∀ z ∈ a.map fun y => y * y, (0 : ℝ) ≤ z := by
      intro z hz
      obtain ⟨y, _, rfl⟩ := List.mem_map.mp hz
      exact mul_self_nonneg y
    have hS : 0 < (a.map fun y => y * y).sum := by
      have hmem : x * x ∈ a.map fun y => y * y := List.mem_map_of_mem _ hx
      have hle : x * x ≤ (a.map fun y => y * y).sum := List.single_le_sum hnn _ hmem
      have hpos : 0 < x * x := mul_self_pos.mpr hx0
      linarith
    have hsq : Real.sqrt ((a.map fun y => y * y).sum) ≠ 0 := by
      rw [Real.sqrt_ne_zero']
      exact hS
    simp only [calculateCosineSimilarity]
    rw [zipWith_mul_self]
    rw [if_neg (by push_neg; exact ⟨hsq, hsq⟩)]
    rw [Real.mul_self_sqrt (le_of_lt hS)]
    exact div_self (ne_of_gt hS)
  · intro h
    simp only [calculateCosineSimilarity]
    rw [if_pos h]

/-- Witness for C9_cosine_properties at the vectors [1, 0] and [0, 2]. -/
theorem C9_cosine_witness :
    (([1, 0] : List ℝ).length = ([0, 2] : List ℝ).length) ∧
    (calculateCosineSimilarity [1, 0] [0, 2] = calculateCosineSimilarity [0, 2] [1, 0] ∧
     ((∃ x ∈ ([1, 0] : List ℝ), x ≠ 0) → calculateCosineSimilarity [1, 0] [1, 0] = 1) ∧
     ((Real.sqrt ((([1, 0] : List ℝ).map fun x => x * x).sum) = 0 ∨
       Real.sqrt ((([0, 2] : List ℝ).map fun x => x * x).sum) = 0) →
       calculateCosineSimilarity [1, 0] [0, 2] = 0)) :=
  ⟨rfl, C9_cosine_properties [1, 0] [0, 2] rfl⟩

/-- Membership in the similarity filter forces membership in the input
and a score above 0.1. -/
theorem mem_filterSim {l : List (SSection × ℝ)} {x : SSection × ℝ} (h : x ∈ filterSim l) :
    x ∈ l ∧ x.2 > 0.1 := by
  induction l with
  | nil => cases h
  | cons y tl ih =>
    unfold filterSim at h
    by_cases hy : y.2 > 0.1
    · rw [if_pos hy] at h
      rcases List.mem_cons.mp h with rfl | h'
      · exact ⟨List.mem_cons_self _ _, hy⟩
      · exact ⟨List.mem_cons_of_mem _ (ih h').1, (ih h').2⟩
    · rw [if_neg hy] at h
      exact ⟨List.mem_cons_of_mem _ (ih h).1, (ih h).2⟩

/-- Inserting keeps only the new element or old elements. -/
theorem mem_insertDescBy {α : Type} (key : α → ℝ) (x : α) (l : List α) :
    ∀ y ∈ insertDescBy key x l, y = x ∨ y ∈ l := by
  induction l with
  | nil => intro y hy; simpa [insertDescBy] using hy
  | cons z tl ih =>
    intro y hy
    unfold insertDescBy at hy
    by_cases hz : key z ≥ key x
    · rw [if_pos hz] at hy
      rcases List.mem_cons.mp hy with rfl | hy'
      · exact Or.inr (List.mem_cons_self _ _)
      · rcases ih y hy' with h | h
        · exact Or.inl h
        · exact Or.inr (List.mem_cons_of_mem _ h)
    · rw [if_neg hz] at hy
      rcases List.mem_cons.mp hy with rfl | hy'
      · exact Or.inl rfl
      · exact Or.inr hy'

/-- Inserting into a descending list keeps it descending. -/
theorem sorted_insertDescBy {α : Type} (key : α → ℝ) (x : α) (l : List α)
    (h : l.Pairwise (fun p q => key p ≥ key q)) :
    (insertDescBy key x l).Pairwise (fun p q => key p ≥ key q) := by
  induction l with
  | nil => simp [insertDescBy]
  | cons z tl ih =>
    rcases List.pairwise_cons.mp h with ⟨hz, htl⟩
    unfold insertDescBy
    by_cases hk : key z ≥ key x
    · rw [if_pos hk]
      refine List.pairwise_cons.mpr ⟨?_, ih htl⟩
      intro y hy
      rcases mem_insertDescBy key x tl y hy with rfl | hmem
      · exact hk
      · exact hz y hmem
    · rw [if_neg hk]
      refine List.pairwise_cons.mpr ⟨?_, List.pairwise_cons.mpr ⟨hz, htl⟩⟩
      intro y hy
      rcases List.mem_cons.mp hy with rfl | hmem
      · exact le_of_not_ge hk
      · exact le_trans (hz y hmem) (le_of_not_ge hk)

/-- The stable sort is descending in the key. -/
theorem sorted_sortDescBy {α : Type} (key : α → ℝ) (l : List α) :
    (sortDescBy key l).Pairwise (fun p q => key p ≥ key q) := by
  suffices h : ∀ acc : List α, acc.Pairwise (fun p q => key p ≥ key q) →
      (l.foldl (fun acc x => insertDescBy key x acc) acc).Pairwise (fun p q => key p ≥ key q) by
    exact h [] List.Pairwise.nil
  induction l with
  | nil => intro acc hacc; exact hacc
  | cons x tl ih =>
    intro acc hacc
    exact ih _ (sorted_insertDescBy key x acc hacc)

/-- Sorting keeps only input elements. -/
theorem mem_sortDescBy {α : Type} (key : α → ℝ) (l : List α) :
    ∀ y ∈ sortDescBy key l, y ∈ l := by
  suffices h : ∀ acc : List α, ∀ y ∈ l.foldl (fun acc x => insertDescBy key x acc) acc,
      y ∈ acc ∨ y ∈ l by
    intro y hy
    rcases h [] y hy with hc | hc
    · cases hc
    · exact hc
  induction l with
  | nil => intro acc y hy; exact Or.inl hy
  | cons x tl ih =>
    intro acc y hy
    rcases ih (insertDescBy key x acc) y hy with hc | hc
    · rcases mem_insertDescBy key x acc y hc with rfl | hmem
      · exact Or.inr (List.mem_cons_self _ _)
      · exact Or.inl hmem
    · exact Or.inr (List.mem_cons_of_mem _ hc)

/-- Inserting is a permutation of consing. -/
theorem insertDescBy_perm {α : Type} (key : α → ℝ) (x : α) (l : List α) :
    (insertDescBy key x l).Perm (x :: l) := by
  induction l with
  | nil => simp [insertDescBy]
  | cons z tl ih =>
    unfold insertDescBy
    by_cases hz : key z ≥ key x
    · rw [if_pos hz]
      exact (ih.cons z).trans (List.Perm.swap x z tl)
    · rw [if_neg hz]

/-- The stable sort permutes its input. -/
theorem sortDescBy_perm {α : Type} (key : α → ℝ) (l : List α) :
    (sortDescBy key l).Perm l := by
  suffices h : ∀ acc : List α,
      (l.foldl (fun acc x => insertDescBy key x acc) acc).Perm (acc ++ l) by
    simpa using h []
  induction l with
  | nil => intro acc; simp
  | cons x tl ih =>
    intro acc
    simp only [List.foldl_cons]
    refine (ih (insertDescBy key x acc)).trans ?_
    refine (((insertDescBy_perm key x acc).append_right tl).trans ?_)
    exact List.perm_middle.symm

/-- Writing a cell and reading it back. -/
theorem getD_set_self {α : Type} [Inhabited α] (l : List α) (k : Nat) (v : α)
    (h : k < l.length) : (l.set k v).getD k default = v := by
  induction l generalizing k with
  | nil => cases h
  | cons a tl ih =>
    cases k with
    | zero => rfl
    | succ n => exact ih n (Nat.lt_of_succ_lt_succ h)

/-- Writing a cell leaves the other cells unchanged. -/
theorem getD_set_ne {α : Type} [Inhabited α] (l : List α) (k i : Nat) (v : α)
    (h : i ≠ k) : (l.set k v).getD i default = l.getD i default := by
  induction l generalizing k i with
  | nil => rfl
  | cons a tl ih =>
    cases k with
    | zero =>
      cases i with
      | zero => exact absurd rfl h
      | succ j => rfl
    | succ n =>
      cases i with
      | zero => rfl
      | succ j => exact ih n j (fun hh => h (by rw [hh]))

/-- find? only looks at the predicate's values. -/
theorem find?_congrB {α : Type} (p q : α → Bool) (h : ∀ x, p x = q x) (l : List α) :
    l.find? p = l.find? q := by
  induction l with
  | nil => rfl
  | cons a tl ih =>
    cases hpa : p a with
    | true =>
      rw [List.find?_cons_of_pos _ hpa, List.find?_cons_of_pos _ (by rw [← h a]; exact hpa)]
    | false =>
      rw [List.find?_cons_of_neg _ (by simp [hpa]),
        List.find?_cons_of_neg _ (by simp [← h a, hpa]), ih]

/-- find? skips a front segment on which the predicate is false. -/
theorem find?_append_none {α : Type} (la lb : List α) (p : α → Bool)
    (h : ∀ x ∈ la, p x = false) : (la ++ lb).find? p = lb.find? p := by
  induction la with
  | nil => rfl
  | cons a tl ih =>
    rw [List.cons_append, List.find?_cons_of_neg _ (by simp [h a (List.mem_cons_self a tl)]),
      ih (fun x hx => h x (List.mem_cons_of_mem _ hx))]

/-- find? over an append tries the front segment first. -/
theorem find?_append_or {α : Type} (la lb : List α) (p : α → Bool) :
    (la ++ lb).find? p =
      match la.find? p with
      | some x => some x
      | none => lb.find? p := by
  induction la with
  | nil => rfl
  | cons a tl ih =>
    cases hpa : p a with
    | true =>
      rw [List.cons_append, List.find?_cons_of_pos _ hpa, List.find?_cons_of_pos _ hpa]
    | false =>
      rw [List.cons_append, List.find?_cons_of_neg _ (by simp [hpa]),
        List.find?_cons_of_neg _ (by simp [hpa]), ih]

/-- The overwrite branch of Map.set does not disturb other keys. -/
theorem assocGet_mapSet_ne {α : Type} (m : List (String × α)) (k : String) (v : α)
    (k' : String) (h : k' ≠ k) :
    assocGet (m.map (fun e => if e.1 == k then (k, v) else e)) k' = assocGet m k' := by
  have hkk : ((k == k') = false) := by
    simp [show ¬ (k = k') from fun hh => h hh.symm]
  induction m with
  | nil => rfl
  | cons e tl ih =>
    by_cases he : e.1 == k
    · have he' : e.1 = k := by simpa using he
      simp only [List.map_cons, if_pos he]
      rw [assocGet, List.find?_cons_of_neg _ (by simpa using hkk),
        assocGet, List.find?_cons_of_neg _ (by simp [he']; simpa using hkk)]
      exact ih
    · simp only [List.map_cons, if_neg he]
      by_cases he' : e.1 == k'
      · rw [assocGet, List.find?_cons_of_pos _ (by simpa using he'),
          assocGet, List.find?_cons_of_pos _ (by simpa using he')]
      · rw [assocGet, List.find?_cons_of_neg _ (by simpa using he'),
          assocGet, List.find?_cons_of_neg _ (by simpa using he')]
        exact ih

/-- Map.set does not disturb lookups of other keys. -/
theorem assocGet_assocSet_ne {α : Type} (m : List (String × α)) (k : String) (v : α)
    (k' : String) (h : k' ≠ k) : assocGet (assocSet m k v) k' = assocGet m k' := by
  unfold assocSet
  by_cases hf : (m.find? (fun e => e.1 == k)).isSome
  · rw [if_pos hf]
    exact assocGet_mapSet_ne m k v k' h
  · rw [if_neg hf]
    unfold assocGet
    rw [find?_append_or]
    cases hm : m.find? (fun e => e.1 == k') with
    | some x => rfl
    | none =>
      have hkv : (((k, v) : String × α).1 == k') = false := by
        simp [show ¬ (k = k') from fun hh => h hh.symm]
      rw [List.find?_cons_of_neg _ (by simpa using hkv)]
      rfl

/-- semanticSearch only ever appends to the store. -/
theorem semanticSearch_store_extend (provider : String → Option (List ℝ)) (q : String)
    (sections : List SSection) (k : Nat) (st : SState) :
    ∃ tail, (semanticSearch provider q sections k st).2.1.store = st.store ++ tail := by
  simp only [semanticSearch]
  split
  · exact ⟨[], by simp⟩
  · split
    · exact ⟨[], by simp⟩
    · exact ⟨_, rfl⟩

/-- semanticSearch preserves state validity and returns in-range
references. -/
theorem semanticSearch_valid (provider : String → Option (List ℝ)) (q : String)
    (sections : List SSection) (k : Nat) (st : SState) (hv : StateValid st) :
    StateValid (semanticSearch provider q sections k st).2.1 ∧
    ∀ r ∈ (semanticSearch provider q sections k st).1,
      r < (semanticSearch provider q sections k st).2.1.store.length := by
  simp only [semanticSearch]
  split
  next refs hc =>
    exact ⟨hv, fun r hr => hv _ _ hc r hr⟩
  next hc =>
    split
    next hp => exact ⟨hv, by simp⟩
    next emb hp =>
      constructor
      · intro key rs hrs r hr
        by_cases hk : key = q ++ "_" ++ toString sections.length
        · subst hk
          rw [assocGet_assocSet_self] at hrs
          cases hrs
          have := (List.mem_range'_1.mp hr).2
          simp only [List.length_append]
          omega
        · rw [assocGet_assocSet_ne _ _ _ _ hk] at hrs
          have := hv _ _ hrs r hr
          simp only [List.length_append]
          omega
      · intro r hr
        have := (List.mem_range'_1.mp hr).2
        simp only [List.length_append]
        omega

/-- The per-term fold preserves validity: the final state is valid, all
collected references are in range of the final store, and the store only
grows. -/
theorem collectFold_valid (provider : String → Option (List ℝ)) (sections : List SSection)
    (terms : List String) :
    ∀ acc : List Nat × SState × Nat, StateValid acc.2.1 →
      (∀ r ∈ acc.1, r < acc.2.1.store.length) →
      StateValid (terms.foldl (searchStep provider sections) acc).2.1 ∧
      (∀ r ∈ (terms.foldl (searchStep provider sections) acc).1,
        r < (terms.foldl (searchStep provider sections) acc).2.1.store.length) := by
  induction terms with
  | nil => intro acc h1 h2; exact ⟨h1, h2⟩
  | cons t tl ih =>
    intro acc h1 h2
    simp only [List.foldl_cons]
    apply ih
    · exact (semanticSearch_valid provider t sections 5 acc.2.1 h1).1
    · intro r hr
      simp only [searchStep] at hr ⊢
      rcases List.mem_append.mp hr with hold | hnew
      · obtain ⟨tail, htail⟩ := semanticSearch_store_extend provider t sections 5 acc.2.1
        rw [htail, List.length_append]
        have := h2 r hold
        omega
      · exact (semanticSearch_valid provider t sections 5 acc.2.1 h1).2 r hnew

/-- Ids are never changed by a cell overwrite that only touches the
score and label fields. -/
theorem idAt_set_score (store : List SResult) (k : Nat) (v : SResult)
    (hsec : v.sec = (store.getD k default).sec) :
    ∀ x, idAt (store.set k v) x = idAt store x := by
  intro x
  unfold idAt
  by_cases hx : x = k
  · subst hx
    by_cases hk : x < store.length
    · rw [getD_set_self store x v hk, hsec]
    · rw [List.set_eq_of_length_le (Nat.le_of_not_lt hk)]
  · rw [getD_set_ne store k x v hx]

/-- Bool equality test is false on distinct strings. -/
theorem beq_false_of_ne {a b : String} (h : a ≠ b) : (a == b) = false := by
  rw [beq_eq_false_iff_ne]
  exact h

/-- Filtering a singleton whose element passes. -/
theorem filter_singleton_pos {α : Type} (p : α → Bool) (a : α) (h : p a = true) :
    [a].filter p = [a] := by
  simp [List.filter_cons, h]

/-- Filtering a singleton whose element fails. -/
theorem filter_singleton_neg {α : Type} (p : α → Bool) (a : α) (h : p a = false) :
    [a].filter p = [] := by
  simp [List.filter_cons, h]

/-- The full invariant step: running the filter loop from any prefix
state ends in a state satisfying the invariant for the whole list. -/
theorem dedupLoop_invariant (store0 : List SResult) (all : List Nat)
    (hval : ∀ r ∈ all, r < store0.length) :
    ∀ (pending processedRefs : List Nat) (store : List SResult) (seen : List String)
      (kept : List Nat),
      all = processedRefs ++ pending →
      DedupInv store0 all processedRefs store seen kept →
      ∃ seenF,
        DedupInv store0 all all (dedupLoop all store pending seen kept).1 seenF
          (dedupLoop all store pending seen kept).2 := by
  intro pending
  induction pending with
  | nil =>
    intro processedRefs store seen kept hsplit hinv
    rw [List.append_nil] at hsplit
    subst hsplit
    exact ⟨seen, hinv⟩
  | cons r rest ih =>
    intro processedRefs store seen kept hsplit hinv
    have hrall : r ∈ all := by
      rw [hsplit]; exact List.mem_append.mpr (Or.inr (List.mem_cons_self r rest))
    have hrlt : r < store0.length := hval r hrall
    have hidr : idAt store r = idAt store0 r := hinv.ids_eq r
    have hinj := List.inj_on_of_nodup_map hinv.kept_nodup
    have hsplit' : all = (processedRefs ++ [r]) ++ rest := by
      rw [hsplit, List.append_assoc]; rfl
    have hsub' : ∀ kk ∈ kept, kk ∈ processedRefs ++ [r] := fun kk hkk =>
      List.mem_append.mpr (Or.inl (hinv.kept_sub kk hkk))
    simp only [dedupLoop]
    by_cases hseen : idAt store r ∈ seen
    · -- duplicate id: look up the first occurrence and possibly mutate it
      rw [if_pos hseen]
      have hseen0 : idAt store0 r ∈ seen := by rwa [hidr] at hseen
      obtain ⟨x0, hx0p, hx0id⟩ := (hinv.seen_iff _).mp hseen0
      obtain ⟨k, hkkept, hkid⟩ := hinv.kept_covers x0 hx0p
      have hkid' : idAt store0 k = idAt store0 r := by rw [hkid, hx0id]
      have hfind : all.find? (fun x => idAt store x == idAt store r) = some k := by
        rw [find?_congrB (fun x => idAt store x == idAt store r)
          (fun x => idAt store0 x == idAt store0 k)
          (fun x => by
            show (idAt store x == idAt store r) = (idAt store0 x == idAt store0 k)
            rw [hinv.ids_eq x, hidr, hkid'])]
        exact hinv.kept_first k hkkept
      rw [hfind]
      dsimp only
      have hkall : k ∈ all := by
        rw [hsplit]; exact List.mem_append.mpr (Or.inl (hinv.kept_sub k hkkept))
      have hklt : k < store0.length := hval k hkall
      have hseen_iff' : ∀ s, s ∈ seen ↔ ∃ x ∈ processedRefs ++ [r], idAt store0 x = s := by
        intro s
        constructor
        · intro hs
          obtain ⟨x, hxp, hxid⟩ := (hinv.seen_iff s).mp hs
          exact ⟨x, List.mem_append.mpr (Or.inl hxp), hxid⟩
        · rintro ⟨x, hxp, hxid⟩
          rcases List.mem_append.mp hxp with hxp | hxp
          · exact (hinv.seen_iff s).mpr ⟨x, hxp, hxid⟩
          · rcases List.mem_singleton.mp hxp with rfl
            rw [← hxid]
            exact hseen0
      have hcovers' : ∀ x ∈ processedRefs ++ [r], ∃ kk ∈ kept,
          idAt store0 kk = idAt store0 x := by
        intro x hxp
        rcases List.mem_append.mp hxp with hxp | hxp
        · exact hinv.kept_covers x hxp
        · rcases List.mem_singleton.mp hxp with rfl
          exact ⟨k, hkkept, hkid'⟩
      have hfilter_other : ∀ k', idAt store0 k' ≠ idAt store0 r →
          (processedRefs ++ [r]).filter (fun x => idAt store0 x == idAt store0 k') =
          processedRefs.filter (fun x => idAt store0 x == idAt store0 k') := by
        intro k' hne
        rw [List.filter_append,
          filter_singleton_neg (fun x => idAt store0 x == idAt store0 k') r
            (beq_false_of_ne (fun hh => hne hh.symm)),
          List.append_nil]
      have hfilter_same : ∀ k', idAt store0 k' = idAt store0 r →
          (processedRefs ++ [r]).filter (fun x => idAt store0 x == idAt store0 k') =
          processedRefs.filter (fun x => idAt store0 x == idAt store0 k') ++ [r] := by
        intro k' hne
        rw [List.filter_append,
          filter_singleton_pos (fun x => idAt store0 x == idAt store0 k') r
            (by simp [hne])]
      by_cases hrk : r ∈ kept
      · -- the duplicate aliases the kept first occurrence: k = r, no update
        have hkr : k = r := hinj hkkept hrk hkid'
        rw [hkr, if_neg (lt_irrefl _)]
        refine ih (processedRefs ++ [r]) store seen kept hsplit' ?_
        refine ⟨hinv.len_eq, hinv.ids_eq, hseen_iff', hsub', hinv.kept_nodup, hcovers',
          hinv.kept_first, ?_, hinv.untouched⟩
        intro k' hk'
        by_cases hne : idAt store0 k' = idAt store0 r
        · have hk'r : k' = r := hinj hk' hrk hne
          rw [hfilter_same k' hne, List.map_append]
          simp only [List.map_cons, List.map_nil]
          rw [List.maximum_concat, hinv.kept_max k' hk']
          have hmem : scoreAt store0 k' ∈
              (processedRefs.filter (fun x => idAt store0 x == idAt store0 k')).map
                (scoreAt store0) :=
            List.mem_map_of_mem _ (List.mem_filter.mpr ⟨hinv.kept_sub k' hk', by simp⟩)
          have hle : scoreAt store0 k' ≤ scoreAt store k' :=
            List.le_maximum_of_mem hmem (hinv.kept_max k' hk')
          have hsr : scoreAt store0 r ≤ scoreAt store k' := by rw [← hk'r]; exact hle
          exact max_eq_left (WithBot.coe_le_coe.mpr hsr)
        · rw [hfilter_other k' hne]
          exact hinv.kept_max k' hk'
      · -- genuine duplicate: r is not kept, k is; compare and maybe mutate
        have hkr : k ≠ r := by
          intro hh
          rw [hh] at hkkept
          exact hrk hkkept
        have hscore_r : scoreAt store r = scoreAt store0 r := by
          unfold scoreAt
          rw [hinv.untouched r hrk]
        by_cases hgt : scoreAt store r > scoreAt store k
        · rw [if_pos hgt]
          have hklt' : k < store.length := by rw [hinv.len_eq]; exact hklt
          have hids' : ∀ x, idAt (store.set k { store.getD k default with
              relevanceScore := scoreAt store r, relevanceLabel := labelAt store r }) x =
              idAt store x :=
            idAt_set_score store k _ rfl
          refine ih (processedRefs ++ [r]) _ seen kept hsplit' ?_
          refine ⟨?_, ?_, hseen_iff', hsub', hinv.kept_nodup, hcovers',
            hinv.kept_first, ?_, ?_⟩
          · rw [List.length_set]; exact hinv.len_eq
          · intro x; rw [hids' x]; exact hinv.ids_eq x
          · intro k' hk'
            by_cases hne : idAt store0 k' = idAt store0 r
            · have hk'k : k' = k := hinj hk' hkkept (by rw [hne, hkid'])
              rw [hfilter_same k' hne, List.map_append]
              simp only [List.map_cons, List.map_nil]
              rw [List.maximum_concat, hinv.kept_max k' hk']
              have hnew : scoreAt (store.set k { store.getD k default with
                  relevanceScore := scoreAt store r,
                  relevanceLabel := labelAt store r }) k' = scoreAt store r := by
                rw [hk'k]
                unfold scoreAt
                rw [getD_set_self store k _ hklt']
              rw [hnew, hscore_r]
              have hlt : scoreAt store k' < scoreAt store0 r := by
                rw [hk'k, ← hscore_r]; exact hgt
              exact max_eq_right (WithBot.coe_le_coe.mpr (le_of_lt hlt))
            · have hk'ne : k' ≠ k := fun hh => hne (by rw [hh, hkid'])
              have hcell : scoreAt (store.set k { store.getD k default with
                  relevanceScore := scoreAt store r,
                  relevanceLabel := labelAt store r }) k' = scoreAt store k' := by
                unfold scoreAt
                rw [getD_set_ne store k k' _ hk'ne]
              rw [hfilter_other k' hne, hcell]
              exact hinv.kept_max k' hk'
          · intro c hc
            have hcne : c ≠ k := by
              intro hh
              rw [hh] at hc
              exact hc hkkept
            rw [getD_set_ne store k c _ hcne]
            exact hinv.untouched c hc
        · rw [if_neg hgt]
          refine ih (processedRefs ++ [r]) store seen kept hsplit' ?_
          refine ⟨hinv.len_eq, hinv.ids_eq, hseen_iff', hsub', hinv.kept_nodup, hcovers',
            hinv.kept_first, ?_, hinv.untouched⟩
          intro k' hk'
          by_cases hne : idAt store0 k' = idAt store0 r
          · have hk'k : k' = k := hinj hk' hkkept (by rw [hne, hkid'])
            rw [hfilter_same k' hne, List.map_append]
            simp only [List.map_cons, List.map_nil]
            rw [List.maximum_concat, hinv.kept_max k' hk']
            have hle : scoreAt store0 r ≤ scoreAt store k' := by
              rw [hk'k, ← hscore_r]
              exact le_of_not_lt hgt
            exact max_eq_left (WithBot.coe_le_coe.mpr hle)
          · rw [hfilter_other k' hne]
            exact hinv.kept_max k' hk'
    · -- fresh id: keep this reference
      rw [if_neg hseen]
      have hseen0 : idAt store0 r ∉ seen := by rwa [hidr] at hseen
      have hfreshp : ∀ x ∈ processedRefs, idAt store0 x ≠ idAt store0 r := by
        intro x hxp hh
        exact hseen0 ((hinv.seen_iff _).mpr ⟨x, hxp, hh⟩)
      have hrk : r ∉ kept := by
        intro hh
        exact hfreshp r (hinv.kept_sub r hh) rfl
      have hscore_r : scoreAt store r = scoreAt store0 r := by
        unfold scoreAt
        rw [hinv.untouched r hrk]
      refine ih (processedRefs ++ [r]) store (idAt store r :: seen) (kept ++ [r]) hsplit' ?_
      refine ⟨hinv.len_eq, hinv.ids_eq, ?_, ?_, ?_, ?_, ?_, ?_, ?_⟩
      · intro s
        rw [hidr]
        constructor
        · intro hs
          rcases List.mem_cons.mp hs with rfl | hs
          · exact ⟨r, List.mem_append.mpr (Or.inr (List.mem_singleton_self r)), rfl⟩
          · obtain ⟨x, hxp, hxid⟩ := (hinv.seen_iff s).mp hs
            exact ⟨x, List.mem_append.mpr (Or.inl hxp), hxid⟩
        · rintro ⟨x, hxp, hxid⟩
          rcases List.mem_append.mp hxp with hxp | hxp
          · exact List.mem_cons_of_mem _ ((hinv.seen_iff s).mpr ⟨x, hxp, hxid⟩)
          · rcases List.mem_singleton.mp hxp with rfl
            rw [← hxid]
            exact List.mem_cons_self _ _
      · intro kk hkk
        rcases List.mem_append.mp hkk with hkk | hkk
        · exact List.mem_append.mpr (Or.inl (hinv.kept_sub kk hkk))
        · exact List.mem_append.mpr (Or.inr hkk)
      · rw [List.map_append]
        simp only [List.map_cons, List.map_nil]
        rw [List.nodup_append]
        refine ⟨hinv.kept_nodup, List.nodup_singleton _, ?_⟩
        intro s hs hs'
        rcases List.mem_singleton.mp hs' with rfl
        obtain ⟨kk, hkk, hkkid⟩ := List.mem_map.mp hs
        exact hfreshp kk (hinv.kept_sub kk hkk) hkkid
      · intro x hxp
        rcases List.mem_append.mp hxp with hxp | hxp
        · obtain ⟨kk, hkk, hkkid⟩ := hinv.kept_covers x hxp
          exact ⟨kk, List.mem_append.mpr (Or.inl hkk), hkkid⟩
        · have hxr : x = r := List.mem_singleton.mp hxp
          exact ⟨r, List.mem_append.mpr (Or.inr (List.mem_singleton_self r)),
            by rw [hxr]⟩
      · intro kk hkk
        rcases List.mem_append.mp hkk with hkk | hkk
        · exact hinv.kept_first kk hkk
        · have hkkr : kk = r := List.mem_singleton.mp hkk
          rw [hkkr, hsplit, find?_append_none _ _ _
            (fun x hx => beq_false_of_ne (hfreshp x hx))]
          rw [List.find?_cons_of_pos _ (by simp)]
      · intro kk hkk
        rcases List.mem_append.mp hkk with hkk | hkk
        · have hne : idAt store0 kk ≠ idAt store0 r := fun hh =>
            hfreshp kk (hinv.kept_sub kk hkk) hh
          rw [List.filter_append,
            filter_singleton_neg (fun x => idAt store0 x == idAt store0 kk) r
              (beq_false_of_ne (fun hh => hne hh.symm)),
            List.append_nil]
          exact hinv.kept_max kk hkk
        · have hkkr : kk = r := List.mem_singleton.mp hkk
          rw [hkkr]
          have hfp : (processedRefs.filter (fun x => idAt store0 x == idAt store0 r)) = [] := by
            rw [List.filter_eq_nil_iff]
            intro x hxp
            simp [hfreshp x hxp]
          rw [List.filter_append,
            filter_singleton_pos (fun x => idAt store0 x == idAt store0 r) r (by simp),
            hfp, List.nil_append]
          simp only [List.map_cons, List.map_nil]
          rw [hscore_r]
          rfl
      · intro c hc
        have hc' : c ∉ kept := fun hh => hc (List.mem_append.mpr (Or.inl hh))
        exact hinv.untouched c hc'

/-- Square root evaluations used by the demo scenario. -/
theorem sqrt_twentyfive : Real.sqrt 25 = 5 := by
  rw [show (25 : ℝ) = 5 ^ 2 by norm_num, Real.sqrt_sq (by norm_num : (0:ℝ) ≤ 5)]

theorem cos_34_10 : calculateCosineSimilarity [3, 4] [1, 0] = 3 / 5 := by
  unfold calculateCosineSimilarity
  norm_num [List.zipWith, List.map]
  rw [sqrt_twentyfive]

theorem cos_10_10 : calculateCosineSimilarity [1, 0] [1, 0] = 1 := by
  unfold calculateCosineSimilarity
  norm_num [List.zipWith, List.map]

theorem label_three_fifths : getRelevanceLabel (3 / 5) = "Medium" := by
  unfold getRelevanceLabel
  rw [if_neg (by norm_num), if_neg (by norm_num), if_pos (by norm_num)]

theorem label_one : getRelevanceLabel 1 = "Very High" := by
  unfold getRelevanceLabel
  rw [if_pos (by norm_num)]

/-- The invariant holds before any reference is processed. -/
theorem dedupInv_init (store0 : List SResult) (all : List Nat) :
    DedupInv store0 all [] store0 [] [] := by
  refine ⟨rfl, fun r => rfl, ?_, ?_, ?_, ?_, ?_, ?_, ?_⟩
  · intro s; simp
  · intro k hk; cases hk
  · simp
  · intro rr hrr; cases hrr
  · intro k hk; cases hk
  · intro k hk; cases hk
  · intro c _; rfl

/-- C3: findMostRelevantSections concatenates the per-term result lists
(each already cut to its per-term top-k by semanticSearch), deduplicates
the concatenation by section id after that cutoff, re-sorts the kept
references by descending relevanceScore and returns at most the top 3;
each returned reference's final score is the maximum of the original
scores over all occurrences of its id in the concatenated per-term
lists, and the returned ids are pairwise distinct. -/
theorem C3_multi_term_ranking (provider : String → Option (List ℝ))
    (userRequest : String) (sections : List SSection) (st : SState)
    (hv : StateValid st) :
    (findMostRelevantSections provider userRequest sections st).1 =
      (sortDescBy
        (scoreAt (deduplicateResults
          (collectResults provider (extractSearchTerms userRequest) sections st).2.1.store
          (collectResults provider (extractSearchTerms userRequest) sections st).1).1)
        (deduplicateResults
          (collectResults provider (extractSearchTerms userRequest) sections st).2.1.store
          (collectResults provider (extractSearchTerms userRequest) sections st).1).2).take 3 ∧
    (findMostRelevantSections provider userRequest sections st).2.1.store =
      (deduplicateResults
        (collectResults provider (extractSearchTerms userRequest) sections st).2.1.store
        (collectResults provider (extractSearchTerms userRequest) sections st).1).1 ∧
    (findMostRelevantSections provider userRequest sections st).1.length ≤ 3 ∧
    List.Pairwise
      (fun p q => scoreAt (findMostRelevantSections provider userRequest sections st).2.1.store p ≥
        scoreAt (findMostRelevantSections provider userRequest sections st).2.1.store q)
      (findMostRelevantSections provider userRequest sections st).1 ∧
    ((findMostRelevantSections provider userRequest sections st).1.map
      (idAt (collectResults provider (extractSearchTerms userRequest) sections st).2.1.store)).Nodup ∧
    ∀ r ∈ (findMostRelevantSections provider userRequest sections st).1,
      (((collectResults provider (extractSearchTerms userRequest) sections st).1.filter
        (fun x =>
          idAt (collectResults provider (extractSearchTerms userRequest) sections st).2.1.store x ==
          idAt (collectResults provider (extractSearchTerms userRequest) sections st).2.1.store r)).map
        (scoreAt (collectResults provider (extractSearchTerms userRequest) sections st).2.1.store)).maximum =
      some (scoreAt (findMostRelevantSections provider userRequest sections st).2.1.store r) := by
  have hvalid := collectFold_valid provider sections (extractSearchTerms userRequest)
    ([], st, 0) hv (by intro r hr; cases hr)
  have hrefs : ∀ r ∈ (collectResults provider (extractSearchTerms userRequest) sections st).1,
      r < (collectResults provider (extractSearchTerms userRequest) sections st).2.1.store.length :=
    hvalid.2
  obtain ⟨seenF, hinv⟩ := dedupLoop_invariant
    (collectResults provider (extractSearchTerms userRequest) sections st).2.1.store
    (collectResults provider (extractSearchTerms userRequest) sections st).1 hrefs
    (collectResults provider (extractSearchTerms userRequest) sections st).1 []
    (collectResults provider (extractSearchTerms userRequest) sections st).2.1.store [] []
    (by rw [List.nil_append]) (dedupInv_init _ _)
  have hfeq : (findMostRelevantSections provider userRequest sections st).1 =
      (sortDescBy
        (scoreAt (deduplicateResults
          (collectResults provider (extractSearchTerms userRequest) sections st).2.1.store
          (collectResults provider (extractSearchTerms userRequest) sections st).1).1)
        (deduplicateResults
          (collectResults provider (extractSearchTerms userRequest) sections st).2.1.store
          (collectResults provider (extractSearchTerms userRequest) sections st).1).2).take 3 := rfl
  have hseq : (findMostRelevantSections provider userRequest sections st).2.1.store =
      (deduplicateResults
        (collectResults provider (extractSearchTerms userRequest) sections st).2.1.store
        (collectResults provider (extractSearchTerms userRequest) sections st).1).1 := rfl
  have hdinv : DedupInv
      (collectResults provider (extractSearchTerms userRequest) sections st).2.1.store
      (collectResults provider (extractSearchTerms userRequest) sections st).1
      (collectResults provider (extractSearchTerms userRequest) sections st).1
      (deduplicateResults
        (collectResults provider (extractSearchTerms userRequest) sections st).2.1.store
        (collectResults provider (extractSearchTerms userRequest) sections st).1).1 seenF
      (deduplicateResults
        (collectResults provider (extractSearchTerms userRequest) sections st).2.1.store
        (collectResults provider (extractSearchTerms userRequest) sections st).1).2 := hinv
  refine ⟨hfeq, hseq, ?_, ?_, ?_, ?_⟩
  · rw [hfeq]
    simp only [List.length_take]
    omega
  · rw [hfeq, hseq]
    exact (sorted_sortDescBy _ _).sublist (List.take_sublist _ _)
  · rw [hfeq]
    have hperm := sortDescBy_perm
      (scoreAt (deduplicateResults
        (collectResults provider (extractSearchTerms userRequest) sections st).2.1.store
        (collectResults provider (extractSearchTerms userRequest) sections st).1).1)
      (deduplicateResults
        (collectResults provider (extractSearchTerms userRequest) sections st).2.1.store
        (collectResults provider (extractSearchTerms userRequest) sections st).1).2
    have hnodup : ((sortDescBy _ _).map
        (idAt (collectResults provider (extractSearchTerms userRequest) sections st).2.1.store)).Nodup :=
      ((hperm.map _).nodup_iff).mpr hdinv.kept_nodup
    exact ((List.take_sublist _ _).map _).nodup hnodup
  · intro r hr
    rw [hseq]
    have hr1 : r ∈ sortDescBy
        (scoreAt (deduplicateResults
          (collectResults provider (extractSearchTerms userRequest) sections st).2.1.store
          (collectResults provider (extractSearchTerms userRequest) sections st).1).1)
        (deduplicateResults
          (collectResults provider (extractSearchTerms userRequest) sections st).2.1.store
          (collectResults provider (extractSearchTerms userRequest) sections st).1).2 := by
      rw [hfeq] at hr
      exact List.mem_of_mem_take hr
    have hr2 := mem_sortDescBy _ _ _ hr1
    exact hdinv.kept_max r hr2

/-- Witness for C3_multi_term_ranking: the empty session state is valid
and the theorem applies to it. -/
theorem C3_multi_term_witness :
    StateValid ⟨[], [], []⟩ ∧
    ((findMostRelevantSections (fun _ => none) "find tuition" [] ⟨[], [], []⟩).1.length ≤ 3) :=
  ⟨fun key refs h => by simp [assocGet] at h,
    (C3_multi_term_ranking (fun _ => none) "find tuition" [] ⟨[], [], []⟩
      (fun key refs h => by simp [assocGet] at h)).2.2.1⟩

/-- C2: the ranking pipeline returns at most maxResults results; every
result's section is an input section with a cached embedding; every
result's score is that section's cosine similarity against the query
embedding and exceeds 0.1; and the results are ordered by descending
score. -/
theorem C2_rank_contract (contentEmbeddings : List (String × List ℝ))
    (queryEmbedding : List ℝ) (sections : List SSection) (maxResults : Nat) :
    (rankSections contentEmbeddings queryEmbedding sections maxResults).length ≤ maxResults ∧
    (∀ r ∈ rankSections contentEmbeddings queryEmbedding sections maxResults,
      ∃ s ∈ sections, r.sec = s ∧ (assocGet contentEmbeddings s.id).isSome ∧
        r.relevanceScore = calculateCosineSimilarity queryEmbedding
          ((assocGet contentEmbeddings s.id).getD []) ∧ r.relevanceScore > 0.1) ∧
    List.Pairwise (fun p q => p.relevanceScore ≥ q.relevanceScore)
      (rankSections contentEmbeddings queryEmbedding sections maxResults) := by
  refine ⟨?_, ?_, ?_⟩
  · simp only [rankSections, List.length_map, List.length_take]
    omega
  · intro r hr
    simp only [rankSections, List.mem_map] at hr
    obtain ⟨x, hx, rfl⟩ := hr
    have hx1 : x ∈ sortDescBy (fun x => x.2)
        (filterSim ((sections.filter fun s => (assocGet contentEmbeddings s.id).isSome).map
          fun s => (s, calculateCosineSimilarity queryEmbedding
            ((assocGet contentEmbeddings s.id).getD [])))) := List.mem_of_mem_take hx
    have hx2 := mem_sortDescBy _ _ _ hx1
    obtain ⟨hx3, hgt⟩ := mem_filterSim hx2
    obtain ⟨s, hs, hxs⟩ := List.mem_map.mp hx3
    refine ⟨s, (List.mem_filter.mp hs).1, ?_, ?_, ?_, ?_⟩
    · rw [← hxs]
    · exact (List.mem_filter.mp hs).2
    · rw [← hxs]
    · rw [← hxs] at hgt ⊢
      exact hgt
  · simp only [rankSections]
    exact List.Pairwise.map _ (fun p q h => h)
      ((sorted_sortDescBy _ _).sublist (List.take_sublist _ _))

/-- C10: result objects cached by searchCache are mutated through shared
references.  The first semanticSearch for "find about revenue" returns
its result with relevanceScore 3/5 and caches it; findMostRelevantSections
on "scroll to find about revenue" re-reads that cached object as its
first term's result and deduplicateResults overwrites its score with the
second term's higher score 1; repeating the original single-term query
then hits the cache and returns the same reference, now scoring 1. -/
theorem C10_cache_results_mutated :
    ((semanticSearch demoProvider "find about revenue" [demoSec] 5 demoState0).1.map
      (scoreAt (semanticSearch demoProvider "find about revenue" [demoSec] 5
        demoState0).2.1.store) = [3 / 5]) ∧
    ((semanticSearch demoProvider "find about revenue" [demoSec] 5
        (findMostRelevantSections demoProvider "scroll to find about revenue" [demoSec]
          (semanticSearch demoProvider "find about revenue" [demoSec] 5 demoState0).2.1).2.1).1 =
      (semanticSearch demoProvider "find about revenue" [demoSec] 5 demoState0).1) ∧
    ((semanticSearch demoProvider "find about revenue" [demoSec] 5
        (findMostRelevantSections demoProvider "scroll to find about revenue" [demoSec]
          (semanticSearch demoProvider "find about revenue" [demoSec] 5 demoState0).2.1).2.1).1.map
      (scoreAt (semanticSearch demoProvider "find about revenue" [demoSec] 5
        (findMostRelevantSections demoProvider "scroll to find about revenue" [demoSec]
          (semanticSearch demoProvider "find about revenue" [demoSec] 5 demoState0).2.1).2.1).2.1.store) = [1]) ∧
    (3 / 5 : ℝ) ≠ 1 := by
  have hterms : extractSearchTerms "scroll to find about revenue" =
      ["find about revenue", "revenue"] := by decide
  have hkey1 : "find about revenue" ++ "_" ++ toString (List.length [demoSec]) =
      "find about revenue_1" := rfl
  have hkey2 : "revenue" ++ "_" ++ toString (List.length [demoSec]) = "revenue_1" := rfl
  have hstep1 : semanticSearch demoProvider "find about revenue" [demoSec] 5 demoState0 =
      ([0], ⟨[("a", [1, 0])], [("find about revenue_1", [0])],
        [{ sec := demoSec, relevanceScore := 3 / 5, relevanceLabel := "Medium" }]⟩, 1) := by
    simp only [semanticSearch, demoState0, hkey1]
    norm_num [assocGet, List.find?, demoProvider, rankSections, filterSim, sortDescBy,
      insertDescBy, assocSet, cos_34_10, label_three_fifths, List.filter, List.range',
      demoSec, List.foldl]
  have hsem1 : semanticSearch demoProvider "find about revenue" [demoSec] 5
      ⟨[("a", [1, 0])], [("find about revenue_1", [0])],
        [{ sec := demoSec, relevanceScore := 3 / 5, relevanceLabel := "Medium" }]⟩ =
      ([0], ⟨[("a", [1, 0])], [("find about revenue_1", [0])],
        [{ sec := demoSec, relevanceScore := 3 / 5, relevanceLabel := "Medium" }]⟩, 0) := by
    simp only [semanticSearch, hkey1]
    simp [assocGet, List.find?]
  have hsem2 : semanticSearch demoProvider "revenue" [demoSec] 5
      ⟨[("a", [1, 0])], [("find about revenue_1", [0])],
        [{ sec := demoSec, relevanceScore := 3 / 5, relevanceLabel := "Medium" }]⟩ =
      ([1], ⟨[("a", [1, 0])],
        [("find about revenue_1", [0]), ("revenue_1", [1])],
        [{ sec := demoSec, relevanceScore := 3 / 5, relevanceLabel := "Medium" },
         { sec := demoSec, relevanceScore := 1, relevanceLabel := "Very High" }]⟩, 1) := by
    simp only [semanticSearch, hkey2]
    norm_num [assocGet, List.find?, demoProvider, rankSections, filterSim, sortDescBy,
      insertDescBy, assocSet, cos_10_10, label_one, List.filter, List.range', demoSec,
      show ("find about revenue_1" == "revenue_1") = false from rfl,
      show ¬("revenue" = "find about revenue") from by decide]
  have hded : deduplicateResults
      [{ sec := demoSec, relevanceScore := 3 / 5, relevanceLabel := "Medium" },
       { sec := demoSec, relevanceScore := 1, relevanceLabel := "Very High" }] [0, 1] =
      ([{ sec := demoSec, relevanceScore := 1, relevanceLabel := "Very High" },
        { sec := demoSec, relevanceScore := 1, relevanceLabel := "Very High" }], [0]) := by
    norm_num [deduplicateResults, dedupLoop, scoreAt, idAt, labelAt, List.getD, List.find?,
      demoSec, List.set]
  have hstep2 : findMostRelevantSections demoProvider "scroll to find about revenue" [demoSec]
      ⟨[("a", [1, 0])], [("find about revenue_1", [0])],
        [{ sec := demoSec, relevanceScore := 3 / 5, relevanceLabel := "Medium" }]⟩ =
      ([0], ⟨[("a", [1, 0])],
        [("find about revenue_1", [0]), ("revenue_1", [1])],
        [{ sec := demoSec, relevanceScore := 1, relevanceLabel := "Very High" },
         { sec := demoSec, relevanceScore := 1, relevanceLabel := "Very High" }]⟩, 1) := by
    rw [findMostRelevantSections, collectResults, hterms]
    simp only [List.foldl_cons, List.foldl_nil, searchStep, hsem1]
    simp only [List.nil_append]
    simp only [hsem2]
    norm_num [hded, sortDescBy, insertDescBy, List.foldl, scoreAt, List.getD]
  have hsem3 : semanticSearch demoProvider "find about revenue" [demoSec] 5
      ⟨[("a", [1, 0])],
        [("find about revenue_1", [0]), ("revenue_1", [1])],
        [{ sec := demoSec, relevanceScore := 1, relevanceLabel := "Very High" },
         { sec := demoSec, relevanceScore := 1, relevanceLabel := "Very High" }]⟩ =
      ([0], ⟨[("a", [1, 0])],
        [("find about revenue_1", [0]), ("revenue_1", [1])],
        [{ sec := demoSec, relevanceScore := 1, relevanceLabel := "Very High" },
         { sec := demoSec, relevanceScore := 1, relevanceLabel := "Very High" }]⟩, 0) := by
    simp only [semanticSearch, hkey1]
    simp [assocGet, List.find?]
  rw [hstep1]
  simp only []
  rw [hstep2]
  simp only []
  rw [hsem3]
  refine ⟨?_, rfl, ?_, by norm_num⟩
  · norm_num [scoreAt, List.getD]
  · norm_num [scoreAt, List.getD]

/-- C4 amended: processContentSections never consults the embedding
cache: every eligible section issues exactly one provider call whatever
the cache holds, and a successful call overwrites the cache entry for
that id with the freshly returned vector.  (The only memoization by id
is that semanticSearch later reads this cache.) -/
theorem C4_process_always_calls_provider (provider : String → Option (List ℝ))
    (s : SSection) (m : List (String × List ℝ)) (v : List ℝ)
    (hq : extractContentForEmbedding s ≠ "" ∧ (extractContentForEmbedding s).length > 50)
    (hp : provider (extractContentForEmbedding s) = some v) :
    (processContentSections provider [s] m).2.2 = 1 ∧
    assocGet (processContentSections provider [s] m).2.1 s.id = some v ∧
    ∀ sections m', (processContentSections provider sections m').2.2 =
      sections.countP qualifiesForEmbedding := by
  have hstep : processStep provider ([], m, 0) s =
      ([⟨s, extractContentForEmbedding s, v⟩], assocSet m s.id v, 1) := by
    unfold processStep
    rw [if_pos hq, hp]
    rfl

  refine ⟨?_, ?_, ?_⟩
  · simp [processContentSections, hstep]
  · simp [processContentSections, hstep, assocGet_assocSet_self]
  · intro sections m'
    simpa [processContentSections] using processFold_calls provider sections ([], m', 0)

/-- Witness for C4_process_always_calls_provider: the concrete section
longSec with its id already cached. -/
theorem C4_process_witness :
    ((extractContentForEmbedding longSec ≠ "" ∧
        (extractContentForEmbedding longSec).length > 50) ∧
      constProvider (extractContentForEmbedding longSec) = some [2]) ∧
    ((processContentSections constProvider [longSec] [("s1", [1])]).2.2 = 1 ∧
      assocGet (processContentSections constProvider [longSec] [("s1", [1])]).2.1
        longSec.id = some [2] ∧
      ∀ sections m', (processContentSections constProvider sections m').2.2 =
        sections.countP qualifiesForEmbedding) :=
  ⟨⟨by decide, rfl⟩,
    C4_process_always_calls_provider constProvider longSec [("s1", [1])] [2] (by decide) rfl⟩

/-- C5: processSemanticSections never clears the embedding cache (the
clearEmbeddings method exists but has no call site in the repository),
so at the start of a second segmentation pass the cache still holds the
first pass's entry — the specification requires it to hold none. -/
theorem C5_prior_pass_embedding_survives :
    (assocGet (processSemanticSections constProvider [passOneSec] []).2.1
      "semantic-section-0").isSome = true := by
  decide

/-- Every preorder path of a forest rooted below pp at sibling offset i
ends in j :: pp for some j ≥ i. -/
theorem mem_preorderUnder (pp : DPath) (i : Nat) (ns : List DNode) (q : DPath)
    (hq : q ∈ preorderUnder pp i ns) : ∃ j, i ≤ j ∧ List.IsSuffix (j :: pp) q := by
  match ns with
  | [] => simp [preorderUnder] at hq
  | .mk d cs :: rest =>
    simp only [preorderUnder, preorderNode] at hq
    rcases List.mem_append.mp hq with h | h
    · rcases List.mem_cons.mp h with rfl | h2
      · exact ⟨i, le_refl i, List.suffix_refl _⟩
      · rcases mem_preorderUnder (i :: pp) 0 cs q h2 with ⟨k, _, hsuf⟩
        exact ⟨i, le_refl i, (List.suffix_cons k (i :: pp)).trans hsuf⟩
    · rcases mem_preorderUnder pp (i + 1) rest q h with ⟨j, hj, hsuf⟩
      exact ⟨j, by omega, hsuf⟩
termination_by sizeOf ns

/-- A suffix of equal-tailed cons lists forces equal heads. -/
theorem suffix_cons_same {x y : Nat} {t : DPath}
    (h : List.IsSuffix (x :: t) (y :: t)) : x = y := by
  have he := h.eq_of_length (by simp)
  simp only [List.cons.injEq] at he
  exact he.1

/-- Preorder paths are pairwise same-parent ordered. -/
theorem pairwise_preorderUnder (pp : DPath) (i : Nat) (ns : List DNode) :
    List.Pairwise sameParentLt (preorderUnder pp i ns) := by
  match ns with
  | [] => simp [preorderUnder]
  | .mk d cs :: rest =>
    simp only [preorderUnder, preorderNode]
    refine List.pairwise_append.mpr ⟨?_, pairwise_preorderUnder pp (i + 1) rest, ?_⟩
    · refine List.pairwise_cons.mpr ⟨?_, pairwise_preorderUnder (i :: pp) 0 cs⟩
      intro q hq t a b h1 h2
      rcases mem_preorderUnder (i :: pp) 0 cs q hq with ⟨k, _, hsuf⟩
      exfalso
      have hlen := hsuf.length_le
      injection h1 with h1a h1b
      subst h1b
      subst h2
      simp at hlen
    · intro p hp q hq
      rcases mem_preorderUnder pp (i + 1) rest q hq with ⟨j, hj, hsufq⟩
      rcases List.mem_cons.mp hp with rfl | hp2
      · intro t a b h1 h2
        injection h1 with h1a h1b
        subst h1a
        subst h1b
        subst h2
        have := suffix_cons_same hsufq
        omega
      · rcases mem_preorderUnder (i :: pp) 0 cs p hp2 with ⟨k, _, hsufp⟩
        intro t a b h1 h2
        subst h1
        subst h2
        rcases List.suffix_cons_iff.mp hsufq with hq1 | hq2
        · exfalso
          injection hq1 with hq1a hq1b
          subst hq1b
          have hlen := hsufp.length_le
          simp at hlen
        · rcases List.suffix_cons_iff.mp hsufp with hp1 | hp3
          · exfalso
            injection hp1 with hp1a hp1b
            subst hp1b
            have := suffix_cons_same hq2
            omega
          · exfalso
            rcases List.suffix_or_suffix_of_suffix hq2 hp3 with hc | hc
            · rcases List.suffix_cons_iff.mp hc with hc1 | hc2
              · have := congrArg List.length hc1
                simp at this
              · have := suffix_cons_same hc2
                omega
            · have hlen := hc.length_le
              simp at hlen
termination_by sizeOf ns

/-- Every path returned by querySelectorAll is nonempty: it names an
element, never the document root. -/
theorem queryAll_ne_nil (doc : List DNode) (sels : List Sel) :
    ∀ q ∈ queryAll doc sels, q ≠ [] := by
  intro q hq
  have hmem := (List.mem_filter.mp hq).1
  rcases mem_preorderUnder [] 0 doc q hmem with ⟨j, _, hsuf⟩
  intro hnil
  subst hnil
  have := List.suffix_nil.mp hsuf
  simp at this

/-- querySelectorAll results are pairwise same-parent ordered. -/
theorem pairwise_queryAll (doc : List DNode) (sels : List Sel) :
    List.Pairwise sameParentLt (queryAll doc sels) :=
  List.Pairwise.sublist (List.filter_sublist _) (pairwise_preorderUnder [] 0 doc)

/-- querySelectorAll returns each element at most once. -/
theorem nodup_queryAll (doc : List DNode) (sels : List Sel) :
    (queryAll doc sels).Nodup := by
  have hp := pairwise_queryAll doc sels
  have h2 : List.Pairwise (fun a b => a ≠ b) (queryAll doc sels) := by
    refine List.Pairwise.imp_of_mem ?_ hp
    intro a b ha hb hr heq
    cases a with
    | nil => exact (queryAll_ne_nil doc sels [] ha) rfl
    | cons x t => exact absurd (hr t x x rfl heq.symm) (lt_irrefl x)
  exact h2

/-- The elements claimed by a heading section form a contiguous index
range of the heading's parent, starting at the heading itself. -/
theorem heading_claims_range (doc : List DNode) (i : Nat) (pp : DPath) :
    ∃ e, i < e ∧ ∀ q, (q ∈ (extractSectionFromHeading doc (i :: pp)).elementPaths ↔
      ∃ k, i ≤ k ∧ k < e ∧ q = k :: pp) := by
  refine ⟨i + 1 + walkCount (headingLevel (dataAt doc (i :: pp)).tag)
    ((nodeAt doc pp).children.drop (i + 1)), by omega, fun q => ?_⟩
  simp only [extractSectionFromHeading]
  constructor
  · intro h
    rcases List.mem_cons.mp h with rfl | h2
    · exact ⟨i, le_refl i, by omega, rfl⟩
    · rcases List.mem_map.mp h2 with ⟨d, hd, rfl⟩
      have hdr := List.mem_range.mp hd
      exact ⟨i + 1 + d, by omega, by omega, rfl⟩
  · rintro ⟨k, hk1, hk2, rfl⟩
    rcases Nat.eq_or_lt_of_le hk1 with rfl | hlt
    · exact List.mem_cons_self _ _
    · refine List.mem_cons.mpr (Or.inr (List.mem_map.mpr
        ⟨k - (i + 1), List.mem_range.mpr (by omega), ?_⟩))
      have : i + 1 + (k - (i + 1)) = k := by omega
      rw [this]

/-- The heading loop preserves its invariant down to an empty pending
list. -/
theorem headingPass_inv (doc : List DNode) :
    ∀ (hs : List DPath) (bs : List Block) (proc : List DPath),
      List.Pairwise sameParentLt hs →
      (∀ hp ∈ hs, hp ≠ []) →
      HeadInv hs bs proc →
      HeadInv [] (headingPass doc hs (bs, proc)).1 (headingPass doc hs (bs, proc)).2 := by
  intro hs
  induction hs with
  | nil =>
    intro bs proc _ _ hinv
    simpa only [headingPass] using hinv
  | cons hp rest ih =>
    intro bs proc hord hne hinv
    obtain ⟨hpair, hcov, hblocks⟩ := hinv
    obtain ⟨i, pp, rfl⟩ : ∃ i pp, hp = i :: pp := by
      cases hp with
      | nil => exact absurd rfl (hne [] (List.mem_cons_self _ _))
      | cons i pp => exact ⟨i, pp, rfl⟩
    by_cases hmem : (i :: pp) ∈ proc
    · have hstep : headingPass doc ((i :: pp) :: rest) (bs, proc) =
          headingPass doc rest (bs, proc) := by
        simp [headingPass, hmem]
      rw [hstep]
      refine ih bs proc (List.pairwise_cons.mp hord).2
        (fun hp' h' => hne hp' (List.mem_cons_of_mem _ h')) ⟨hpair, hcov, ?_⟩
      intro b hb
      rcases hblocks b hb with ⟨ppb, ib, eb, hlt, hiffb, hhsb⟩
      exact ⟨ppb, ib, eb, hlt, hiffb,
        fun hp' h' => hhsb hp' (List.mem_cons_of_mem _ h')⟩
    · have hstep : headingPass doc ((i :: pp) :: rest) (bs, proc) =
          headingPass doc rest
            (bs ++ [extractSectionFromHeading doc (i :: pp)],
             proc ++ (extractSectionFromHeading doc (i :: pp)).elementPaths) := by
        simp [headingPass, hmem]
      rw [hstep]
      rcases heading_claims_range doc i pp with ⟨e, hie, hiff⟩
      refine ih _ _ (List.pairwise_cons.mp hord).2
        (fun hp' h' => hne hp' (List.mem_cons_of_mem _ h')) ⟨?_, ?_, ?_⟩
      · refine List.pairwise_append.mpr ⟨hpair, List.pairwise_singleton _ _, ?_⟩
        intro b hb b' hb'
        have hb'eq : b' = extractSectionFromHeading doc (i :: pp) :=
          List.mem_singleton.mp hb'
        subst hb'eq
        rcases hblocks b hb with ⟨ppb, ib, eb, hlt, hiffb, hhsb⟩
        intro q hqb hqA
        rcases (hiffb q).mp hqb with ⟨k, hk1, hk2, rfl⟩
        rcases (hiff (k :: ppb)).mp hqA with ⟨m, hm1, hm2, hqm⟩
        have hppb : ppb = pp ∧ k = m := by
          injection hqm with a1 a2
          exact ⟨a2, a1⟩
        obtain ⟨hpe, hkm⟩ := hppb
        have heb : eb ≤ i :=
          hhsb (i :: pp) (List.mem_cons_self _ _) i (by rw [hpe]) hmem
        omega
      · intro b hb p hpmem
        rcases List.mem_append.mp hb with hbl | hbr
        · exact List.mem_append.mpr (Or.inl (hcov b hbl p hpmem))
        · have hbe : b = extractSectionFromHeading doc (i :: pp) :=
            List.mem_singleton.mp hbr
          subst hbe
          exact List.mem_append.mpr (Or.inr hpmem)
      · intro b hb
        rcases List.mem_append.mp hb with hbl | hbr
        · rcases hblocks b hbl with ⟨ppb, ib, eb, hlt, hiffb, hhsb⟩
          refine ⟨ppb, ib, eb, hlt, hiffb, ?_⟩
          intro hp' h' j hj hnot
          refine hhsb hp' (List.mem_cons_of_mem _ h') j hj ?_
          intro hc
          exact hnot (List.mem_append.mpr (Or.inl hc))
        · have hbe : b = extractSectionFromHeading doc (i :: pp) :=
            List.mem_singleton.mp hbr
          subst hbe
          refine ⟨pp, i, e, hie, hiff, ?_⟩
          intro hp' h' j hj hnot
          have hlt2 : i < j :=
            (List.pairwise_cons.mp hord).1 hp' h' pp i j rfl hj
          rcases Nat.lt_or_ge j e with hje | hje
          · exfalso
            refine hnot (List.mem_append.mpr (Or.inr ((hiff hp').mpr
              ⟨j, by omega, hje, hj⟩)))
          · exact hje

/-- extractContentBlock claims exactly its own element. -/
theorem extractContentBlock_claims (doc : List DNode) (p : DPath) :
    (extractContentBlock doc p).elementPaths = [p] := rfl

/-- One semantic-selector sweep preserves pairwise disjointness and
proc-coverage of the accumulated blocks. -/
theorem semanticPassOne_inv (doc : List DNode) :
    ∀ (ps : List DPath) (bs : List Block) (proc : List DPath),
      List.Pairwise BlocksDisjoint bs →
      (∀ b ∈ bs, ∀ p ∈ b.elementPaths, p ∈ proc) →
      List.Pairwise BlocksDisjoint (semanticPassOne doc ps (bs, proc)).1 ∧
      (∀ b ∈ (semanticPassOne doc ps (bs, proc)).1, ∀ p ∈ b.elementPaths,
        p ∈ (semanticPassOne doc ps (bs, proc)).2) := by
  intro ps
  induction ps with
  | nil =>
    intro bs proc h1 h2
    exact ⟨h1, h2⟩
  | cons p ps ih =>
    intro bs proc h1 h2
    by_cases hmem : p ∈ proc
    · have hstep : semanticPassOne doc (p :: ps) (bs, proc) =
          semanticPassOne doc ps (bs, proc) := by
        simp [semanticPassOne, hmem]
      rw [hstep]
      exact ih bs proc h1 h2
    · by_cases hlen : (extractContentBlock doc p).content.length > 100
      · have hstep : semanticPassOne doc (p :: ps) (bs, proc) =
            semanticPassOne doc ps
              (bs ++ [extractContentBlock doc p], proc ++ [p]) := by
          simp [semanticPassOne, hmem, hlen]
        rw [hstep]
        refine ih _ _ ?_ ?_
        · refine List.pairwise_append.mpr ⟨h1, List.pairwise_singleton _ _, ?_⟩
          intro b hb b' hb'
          have hb'e : b' = extractContentBlock doc p := List.mem_singleton.mp hb'
          subst hb'e
          intro q hqb hqB
          rw [extractContentBlock_claims] at hqB
          have hqp : q = p := List.mem_singleton.mp hqB
          subst hqp
          exact hmem (h2 b hb q hqb)
        · intro b hb q hq
          rcases List.mem_append.mp hb with hbl | hbr
          · exact List.mem_append.mpr (Or.inl (h2 b hbl q hq))
          · have hbe : b = extractContentBlock doc p := List.mem_singleton.mp hbr
            subst hbe
            rw [extractContentBlock_claims] at hq
            exact List.mem_append.mpr (Or.inr hq)
      · have hstep : semanticPassOne doc (p :: ps) (bs, proc) =
            semanticPassOne doc ps (bs, proc) := by
          simp [semanticPassOne, hmem, hlen]
        rw [hstep]
        exact ih bs proc h1 h2

/-- The whole semantic pass preserves pairwise disjointness and
proc-coverage. -/
theorem semanticPass_inv (doc : List DNode) :
    ∀ (gs : List (List Sel)) (bs : List Block) (proc : List DPath),
      List.Pairwise BlocksDisjoint bs →
      (∀ b ∈ bs, ∀ p ∈ b.elementPaths, p ∈ proc) →
      List.Pairwise BlocksDisjoint (semanticPass doc gs (bs, proc)).1 ∧
      (∀ b ∈ (semanticPass doc gs (bs, proc)).1, ∀ p ∈ b.elementPaths,
        p ∈ (semanticPass doc gs (bs, proc)).2) := by
  intro gs
  induction gs with
  | nil =>
    intro bs proc h1 h2
    exact ⟨h1, h2⟩
  | cons g gs ih =>
    intro bs proc h1 h2
    have hone := semanticPassOne_inv doc (queryAll doc g) bs proc h1 h2
    exact ih (semanticPassOne doc (queryAll doc g) (bs, proc)).1
      (semanticPassOne doc (queryAll doc g) (bs, proc)).2 hone.1 hone.2

/-- Every emitted text block claims exactly one paragraph of the query
list, and that paragraph was not in the processed set. -/
theorem textBlocksLoop_claims (doc : List DNode) (processed : List DPath) :
    ∀ (ps : List DPath), ∀ b ∈ textBlocksLoop doc processed ps,
      ∃ p, p ∈ ps ∧ p ∉ processed ∧ b.elementPaths = [p] := by
  intro ps
  induction ps with
  | nil =>
    intro b hb
    simp [textBlocksLoop] at hb
  | cons p ps ih =>
    intro b hb
    simp only [textBlocksLoop] at hb
    split at hb
    · rcases ih b hb with ⟨p', h1, h2, h3⟩
      exact ⟨p', List.mem_cons_of_mem _ h1, h2, h3⟩
    · next hmem =>
      split at hb
      · split at hb
        · rcases List.mem_cons.mp hb with rfl | hb2
          · exact ⟨p, List.mem_cons_self _ _, hmem, rfl⟩
          · rcases ih b hb2 with ⟨p', h1, h2, h3⟩
            exact ⟨p', List.mem_cons_of_mem _ h1, h2, h3⟩
        · rcases ih b hb with ⟨p', h1, h2, h3⟩
          exact ⟨p', List.mem_cons_of_mem _ h1, h2, h3⟩
      · rcases ih b hb with ⟨p', h1, h2, h3⟩
        exact ⟨p', List.mem_cons_of_mem _ h1, h2, h3⟩

/-- Text blocks emitted over a duplicate-free paragraph list claim
pairwise disjoint elements. -/
theorem textBlocksLoop_pairwise (doc : List DNode) (processed : List DPath) :
    ∀ (ps : List DPath), ps.Nodup →
      List.Pairwise BlocksDisjoint (textBlocksLoop doc processed ps) := by
  intro ps
  induction ps with
  | nil =>
    intro _
    simp [textBlocksLoop]
  | cons p ps ih =>
    intro hnd
    have hpnot := (List.nodup_cons.mp hnd).1
    have hnd2 := (List.nodup_cons.mp hnd).2
    simp only [textBlocksLoop]
    split
    · exact ih hnd2
    · split
      · split
        · refine List.pairwise_cons.mpr ⟨?_, ih hnd2⟩
          intro b' hb'
          rcases textBlocksLoop_claims doc processed ps b' hb' with ⟨p', h1, h2, h3⟩
          intro q hq
          have hqp : q = p := List.mem_singleton.mp hq
          rw [h3, hqp]
          intro hc
          have hpp' : p = p' := List.mem_singleton.mp hc
          exact hpnot (by rw [hpp']; exact h1)
        · exact ih hnd2
      · exact ih hnd2

/-- C6 (amended): for every document, the claimed-element lists of the
blocks returned by identifyContentBlocks are pairwise disjoint — no
element is a claimed element of two different blocks.  (The original
claim's stronger reading, that no element contributes content to two
sections even through an unclaimed descendant, is refuted by the
counterexample below.) -/
theorem C6_blocks_claim_disjoint_elements (doc : List DNode) :
    List.Pairwise BlocksDisjoint (identifyContentBlocks doc) := by
  have hhead := headingPass_inv doc (queryAll doc headingSelList) [] []
    (pairwise_queryAll doc headingSelList) (queryAll_ne_nil doc headingSelList)
    ⟨List.Pairwise.nil, fun b hb => absurd hb (List.not_mem_nil b),
      fun b hb => absurd hb (List.not_mem_nil b)⟩
  obtain ⟨hp1, hp2, _⟩ := hhead
  have hsem := semanticPass_inv doc semanticSelectors
    (headingPass doc (queryAll doc headingSelList) ([], [])).1
    (headingPass doc (queryAll doc headingSelList) ([], [])).2 hp1 hp2
  obtain ⟨hs1, hs2⟩ := hsem
  simp only [identifyContentBlocks, findTextBlocks]
  refine List.pairwise_append.mpr
    ⟨hs1, textBlocksLoop_pairwise _ _ _ (nodup_queryAll _ _), ?_⟩
  intro b hb b' hb'
  rcases textBlocksLoop_claims _ _ (queryAll doc textBlockSelList) b' hb'
    with ⟨p, h1, h2, h3⟩
  intro q hq
  rw [h3]
  intro hc
  have hqp : q = p := List.mem_singleton.mp hc
  subst hqp
  exact h2 (hs2 b hb q hq)

set_option maxRecDepth 8000 in
/-- C6 counterexample: in the demo document — an h1 followed by a div
holding one long paragraph — the paragraph at path [0, 1] contributes
content to two different output blocks: the h1 heading section claims
the div (so the paragraph's text is part of that section's content),
while findTextBlocks, whose processed check only sees the div and not
its child, emits the same paragraph again as a separate text block. -/
theorem C6_counterexample_descendant_double_count :
    [0, 1] ∈ docPaths demoDoc ∧
    (identifyContentBlocks demoDoc).length = 2 ∧
    (identifyContentBlocks demoDoc).getD 0 defaultBlock ≠
      (identifyContentBlocks demoDoc).getD 1 defaultBlock ∧
    contributesTo [0, 1] ((identifyContentBlocks demoDoc).getD 0 defaultBlock) = true ∧
    contributesTo [0, 1] ((identifyContentBlocks demoDoc).getD 1 defaultBlock) = true := by
  decide

end ChatbotExt
